import Mathlib

/-!
Verification of the `unowned-buf` buffering layer (`src/lib.rs`).

Shallow embedding conventions:
* bytes are `Nat` (the code never relies on `u8` overflow; all stores are copies);
* a byte source is an `RStream`: the bytes it still serves, plus an `oracle`
  choosing, per call, either an error or how many bytes to report (always
  clamped to the slice length handed in, matching a well-behaved `Read`);
* a byte sink is a `WStream` accumulating the bytes accepted so far, with the
  same kind of oracle for `write`;
* `usize` cursors are `Nat`; the fixed `[u8; S]` array is a `List Nat` whose
  length `S` is kept invariant;
* Rust loops become fuel-structural recursions returning `Option`; `none`
  means the fuel ran out (never happens for adequate fuel, proved where
  needed) or a `panic!`/`unreachable!` path was hit;
* operations return the `io::Result` value, the updated buffer and stream,
  and the list of bytes they copied out / appended to the caller's collector.
-/

namespace UnownedBuf

/-- The error values that can cross the `io::Result` boundary in this crate:
an error propagated from the underlying stream (tagged with the call index it
came from, so "returned unchanged" is expressible), `ErrorKind::UnexpectedEof`,
and `ErrorKind::InvalidData`. -/
inductive IOErr where
  | streamErr (code : Nat)
  | unexpectedEof
  | invalidData
deriving DecidableEq, Repr

/-- A byte source: `data` is the byte sequence it still serves, `oracle i`
decides the behavior of its `i`-th `read` call (`none` = return an error,
`some k` = report `min k (min slice_len remaining)` bytes), `calls` counts
the `read` calls made so far. -/
structure RStream where
  data : List Nat
  oracle : Nat → Option Nat
  calls : Nat

/-- One `Read::read` call with a slice of length `n`: reports at most `n`
bytes (well-behaved source), `0` meaning end-of-stream. -/
def streamRead (s : RStream) (n : Nat) : Except IOErr (List Nat) × RStream :=
  match s.oracle s.calls with
  | none => (.error (.streamErr s.calls), { s with calls := s.calls + 1 })
  | some k =>
    let m := min k (min n s.data.length)
    (.ok (s.data.take m),
     { data := s.data.drop m, oracle := s.oracle, calls := s.calls + 1 })

/-- `UnownedReadBuffer<S>`: two cursors plus the fixed byte array
(`buffer.length = S` is part of the invariant `RInv`). -/
structure UnownedReadBuffer where
  read_count : Nat
  fill_count : Nat
  buffer : List Nat
deriving DecidableEq, Repr

/-- `UnownedReadBuffer::new()`: both cursors 0, zeroed storage. -/
def freshRead (S : Nat) : UnownedReadBuffer :=
  { read_count := 0, fill_count := 0, buffer := List.replicate S 0 }

/-- `slice.copy_within(a..b, 0)`: move `l[a..b]` to the front, keep the rest. -/
def copyToFront (l : List Nat) (a b : Nat) : List Nat :=
  let seg := (l.drop a).take (b - a)
  seg ++ l.drop seg.length

/-- Overwrite `l[p .. p + d.length]` with `d` (the effect of
`copy_from_slice` into `buffer[p..p + d.len()]`). -/
def writeAt (l : List Nat) (p : Nat) (d : List Nat) : List Nat :=
  l.take p ++ d ++ l.drop (p + d.length)

/-- The resident bytes `buffer[read_count..fill_count]`. -/
def resident (b : UnownedReadBuffer) : List Nat :=
  (b.buffer.take b.fill_count).drop b.read_count

/-- `available()`: `fill_count - read_count`. -/
def available (b : UnownedReadBuffer) : Nat :=
  b.fill_count - b.read_count

/-- The documented buffer invariant `0 <= read_count <= fill_count <= S`,
together with the fixed storage size. -/
def RInv (S : Nat) (b : UnownedReadBuffer) : Prop :=
  b.read_count ≤ b.fill_count ∧ b.fill_count ≤ S ∧ b.buffer.length = S

instance (S : Nat) (b : UnownedReadBuffer) : Decidable (RInv S b) := by
  unfold RInv; infer_instance

/-- `compact()`. -/
def compact (b : UnownedReadBuffer) : UnownedReadBuffer :=
  if 0 < b.read_count then
    { read_count := 0
      fill_count := b.fill_count - b.read_count
      buffer :=
        if b.read_count < b.fill_count then
          copyToFront b.buffer b.read_count b.fill_count
        else b.buffer }
  else b

/-- `feed(read)`: compact, then one stream read into `buffer[fill_count..]`;
`Ok(false)` signals end-of-stream. -/
def feed (b : UnownedReadBuffer) (s : RStream) :
    Except IOErr Bool × UnownedReadBuffer × RStream :=
  let b1 := compact b
  match streamRead s (b1.buffer.length - b1.fill_count) with
  | (.error e, s') => (.error e, b1, s')
  | (.ok chunk, s') =>
    if chunk.length = 0 then (.ok false, b1, s')
    else
      (.ok true,
       { b1 with
         buffer := writeAt b1.buffer b1.fill_count chunk
         fill_count := b1.fill_count + chunk.length },
       s')

/-- The shared serve-from-buffer step of `try_read`/`read`: full read when
`available >= out.len()`, otherwise drain everything and reset both cursors. -/
def serveRead (b : UnownedReadBuffer) (n : Nat) : List Nat × UnownedReadBuffer :=
  if n ≤ available b then
    ((resident b).take n, { b with read_count := b.read_count + n })
  else
    (resident b, { b with read_count := 0, fill_count := 0 })

/-- `try_read(buffer)` (no stream I/O): returns the bytes copied out. -/
def try_read (b : UnownedReadBuffer) (n : Nat) : List Nat × UnownedReadBuffer :=
  if n = 0 then ([], b)
  else if available b = 0 then ([], b)
  else serveRead b n

/-- `read(read, buffer)` with an output slice of length `n`; returns the bytes
copied into the slice (their count is the `Ok` value in Rust). -/
def read (b : UnownedReadBuffer) (s : RStream) (n : Nat) :
    Except IOErr (List Nat) × UnownedReadBuffer × RStream :=
  if n = 0 then (.ok [], b, s)
  else if available b = 0 then
    match feed b s with
    | (.error e, b', s') => (.error e, b', s')
    | (.ok false, b', s') => (.ok [], b', s')
    | (.ok true, b', s') =>
      let (out, b'') := serveRead b' n
      (.ok out, b'', s')
  else
    let (out, b'') := serveRead b n
    (.ok out, b'', s)

/-- `ensure_readable(read)`. -/
def ensure_readable (b : UnownedReadBuffer) (s : RStream) :
    Except IOErr Bool × UnownedReadBuffer × RStream :=
  if 0 < available b then (.ok true, b, s) else feed b s

/-- `fill_buf(read)`: the returned slice is the resident run. -/
def fill_buf (b : UnownedReadBuffer) (s : RStream) :
    Except IOErr (List Nat) × UnownedReadBuffer × RStream :=
  if available b = 0 then
    match feed b s with
    | (.error e, b', s') => (.error e, b', s')
    | (.ok false, b', s') => (.ok [], b', s')
    | (.ok true, b', s') => (.ok (resident b'), b', s')
  else (.ok (resident b), b, s)

/-- `consume(amt)`; `none` is the assertion failure
`read_count + amt <= fill_count`. -/
def consume (b : UnownedReadBuffer) (amt : Nat) : Option UnownedReadBuffer :=
  if b.read_count + amt ≤ b.fill_count then
    some { b with read_count := b.read_count + amt }
  else none

/-- `skip(amount)`; `none` is the `available >= amount` assertion failure. -/
def skip (b : UnownedReadBuffer) (amount : Nat) : Option UnownedReadBuffer :=
  if available b < amount then none
  else if available b = amount then
    some { b with read_count := 0, fill_count := 0 }
  else some { b with read_count := b.read_count + amount }

/-- `read_into_internal_buffer(read)`; `none` is the
`available_space() != 0` assertion failure. -/
def read_into_internal_buffer (b : UnownedReadBuffer) (s : RStream) :
    Option (Except IOErr Nat × UnownedReadBuffer × RStream) :=
  if b.buffer.length - b.fill_count = 0 then none
  else
    match streamRead s (b.buffer.length - b.fill_count) with
    | (.error e, s') => some (.error e, b, s')
    | (.ok chunk, s') =>
      some (.ok chunk.length,
        { b with
          buffer := writeAt b.buffer b.fill_count chunk
          fill_count := b.fill_count + chunk.length }, s')

/-- `copy_into_internal_buffer(data)`; `none` is the space assertion failure. -/
def copy_into_internal_buffer (b : UnownedReadBuffer) (d : List Nat) :
    Option UnownedReadBuffer :=
  if b.buffer.length - b.fill_count < d.length then none
  else
    some { b with
           buffer := writeAt b.buffer b.fill_count d
           fill_count := b.fill_count + d.length }

/-- Loop of `read_exact` (fuel-structural; each recursion follows a successful
`feed`, so fuel beyond `s.data.length` is never exhausted). `n` is the length
of the not-yet-filled suffix of the output slice; the returned list holds the
bytes copied into the slice so far (kept on the error path: no rollback). -/
def readExactLoop :
    Nat → UnownedReadBuffer → RStream → Nat →
    Option (Except IOErr Unit × UnownedReadBuffer × RStream × List Nat)
  | 0, _, _, _ => none
  | fuel + 1, b, s, n =>
    if n ≤ available b then
      some (.ok (), { b with read_count := b.read_count + n }, s,
            (resident b).take n)
    else
      let out := resident b
      let b0 : UnownedReadBuffer := { b with read_count := 0, fill_count := 0 }
      match feed b0 s with
      | (.error e, b', s') => some (.error e, b', s', out)
      | (.ok false, b', s') => some (.error .unexpectedEof, b', s', out)
      | (.ok true, b', s') =>
        match readExactLoop fuel b' s' (n - available b) with
        | none => none
        | some (r, b2, s2, out2) => some (r, b2, s2, out ++ out2)

/-- `read_exact(read, buffer)` for an output slice of length `n`. -/
def read_exact (fuel : Nat) (b : UnownedReadBuffer) (s : RStream) (n : Nat) :
    Option (Except IOErr Unit × UnownedReadBuffer × RStream × List Nat) :=
  if n = 0 then some (.ok (), b, s, [])
  else if available b = 0 then
    match feed b s with
    | (.error e, b', s') => some (.error e, b', s', [])
    | (.ok false, b', s') => some (.error .unexpectedEof, b', s', [])
    | (.ok true, b', s') => readExactLoop fuel b' s' n
  else readExactLoop fuel b s n

/-- Index of the first occurrence of `byte` (the `for idx in
read_count..fill_count` scan, relative to `read_count`). -/
def findByte : List Nat → Nat → Option Nat
  | [], _ => none
  | a :: l, byte => if a = byte then some 0 else (findByte l byte).map (· + 1)

/-- Loop of `read_until`; the returned list holds the bytes appended to the
caller's `Vec` by this call. -/
def readUntilLoop :
    Nat → UnownedReadBuffer → RStream → Nat → Nat →
    Option (Except IOErr Nat × UnownedReadBuffer × RStream × List Nat)
  | 0, _, _, _, _ => none
  | fuel + 1, b, s, byte, count =>
    match findByte (resident b) byte with
    | some i =>
      let tp := (resident b).take (i + 1)
      some (.ok (count + tp.length),
            { b with read_count := b.read_count + tp.length }, s, tp)
    | none =>
      let tp := resident b
      let b0 : UnownedReadBuffer := { b with read_count := 0, fill_count := 0 }
      match feed b0 s with
      | (.error e, b', s') => some (.error e, b', s', tp)
      | (.ok false, b', s') => some (.ok (count + tp.length), b', s', tp)
      | (.ok true, b', s') =>
        match readUntilLoop fuel b' s' byte (count + tp.length) with
        | none => none
        | some (r, b2, s2, out2) => some (r, b2, s2, tp ++ out2)

/-- `read_until(read, byte, buf)`. -/
def read_until (fuel : Nat) (b : UnownedReadBuffer) (s : RStream) (byte : Nat) :
    Option (Except IOErr Nat × UnownedReadBuffer × RStream × List Nat) :=
  if available b = 0 then
    match feed b s with
    | (.error e, b', s') => some (.error e, b', s', [])
    | (.ok false, b', s') => some (.ok 0, b', s', [])
    | (.ok true, b', s') => readUntilLoop fuel b' s' byte 0
  else readUntilLoop fuel b s byte 0

/-- Loop of `read_until_limit`: the resident run is first clamped so that at
most `limit - count` bytes can be appended, then scanned for the delimiter. -/
def readUntilLimitLoop :
    Nat → UnownedReadBuffer → RStream → Nat → Nat → Nat →
    Option (Except IOErr Nat × UnownedReadBuffer × RStream × List Nat)
  | 0, _, _, _, _, _ => none
  | fuel + 1, b, s, byte, limit, count =>
    let t0 := resident b
    let t1 := if limit < count + t0.length then t0.take (limit - count) else t0
    match findByte t1 byte with
    | some i =>
      let tp := t1.take (i + 1)
      some (.ok (count + tp.length),
            { b with read_count := b.read_count + tp.length }, s, tp)
    | none =>
      let b1 : UnownedReadBuffer :=
        { b with read_count := b.read_count + t1.length }
      if limit ≤ count + t1.length then
        some (.ok (count + t1.length), b1, s, t1)
      else
        match feed b1 s with
        | (.error e, b', s') => some (.error e, b', s', t1)
        | (.ok false, b', s') => some (.ok (count + t1.length), b', s', t1)
        | (.ok true, b', s') =>
          match readUntilLimitLoop fuel b' s' byte limit (count + t1.length) with
          | none => none
          | some (r, b2, s2, out2) => some (r, b2, s2, t1 ++ out2)

/-- `read_until_limit(read, byte, limit, buf)`. -/
def read_until_limit (fuel : Nat) (b : UnownedReadBuffer) (s : RStream)
    (byte limit : Nat) :
    Option (Except IOErr Nat × UnownedReadBuffer × RStream × List Nat) :=
  if limit = 0 then some (.ok 0, b, s, [])
  else if available b = 0 then
    match feed b s with
    | (.error e, b', s') => some (.error e, b', s', [])
    | (.ok false, b', s') => some (.ok 0, b', s', [])
    | (.ok true, b', s') => readUntilLimitLoop fuel b' s' byte limit 0
  else readUntilLimitLoop fuel b s byte limit 0

/-- Loop of `read_to_end`. -/
def readToEndLoop :
    Nat → UnownedReadBuffer → RStream → Nat →
    Option (Except IOErr Nat × UnownedReadBuffer × RStream × List Nat)
  | 0, _, _, _ => none
  | fuel + 1, b, s, count =>
    let tp := resident b
    let b0 : UnownedReadBuffer := { b with read_count := 0, fill_count := 0 }
    match feed b0 s with
    | (.error e, b', s') => some (.error e, b', s', tp)
    | (.ok false, b', s') => some (.ok (count + tp.length), b', s', tp)
    | (.ok true, b', s') =>
      match readToEndLoop fuel b' s' (count + tp.length) with
      | none => none
      | some (r, b2, s2, out2) => some (r, b2, s2, tp ++ out2)

/-- `read_to_end(read, buf)`. -/
def read_to_end (fuel : Nat) (b : UnownedReadBuffer) (s : RStream) :
    Option (Except IOErr Nat × UnownedReadBuffer × RStream × List Nat) :=
  if available b = 0 then
    match feed b s with
    | (.error e, b', s') => some (.error e, b', s', [])
    | (.ok false, b', s') => some (.ok 0, b', s', [])
    | (.ok true, b', s') => readToEndLoop fuel b' s' 0
  else readToEndLoop fuel b s 0

/-- `utf8_len`: sequence length suggested by a leading byte, 0 if invalid. -/
def utf8_len (first : Nat) : Nat :=
  if first &&& 0x80 = 0 then 1
  else if first &&& 0xE0 = 0xC0 then 2
  else if first &&& 0xF0 = 0xE0 then 3
  else if first &&& 0xF8 = 0xF0 then 4
  else 0

/-- `utf8_cont_assert`: the byte must carry the continuation bit pattern. -/
def utf8_cont_assert (cont : Nat) : Except IOErr Unit :=
  if cont &&& 0xC0 = 0x80 then .ok () else .error .invalidData

/-- `next_utf8`: size of the next character starting at `i`. The source
indexes without bounds checks (callers keep it in bounds); out-of-range
positions read as 0 here, matching it on every reachable input. -/
def next_utf8 (l : List Nat) (i : Nat) : Except IOErr Nat :=
  match utf8_len (l.getD i 0) with
  | 1 => .ok 1
  | 2 =>
    match utf8_cont_assert (l.getD (i + 1) 0) with
    | .error e => .error e
    | .ok _ => .ok 2
  | 3 =>
    match utf8_cont_assert (l.getD (i + 1) 0) with
    | .error e => .error e
    | .ok _ =>
      match utf8_cont_assert (l.getD (i + 2) 0) with
      | .error e => .error e
      | .ok _ => .ok 3
  | 4 =>
    match utf8_cont_assert (l.getD (i + 1) 0) with
    | .error e => .error e
    | .ok _ =>
      match utf8_cont_assert (l.getD (i + 2) 0) with
      | .error e => .error e
      | .ok _ =>
        match utf8_cont_assert (l.getD (i + 3) 0) with
        | .error e => .error e
        | .ok _ => .ok 4
  | _ => .error .invalidData

/-- A UTF-8 continuation byte. -/
def isCont (b : Nat) : Bool := decide (0x80 ≤ b) && decide (b ≤ 0xBF)

/-- Full UTF-8 validity as checked by `core::str::from_utf8` (external to this
crate): leading-byte classes with their continuation ranges, rejecting
overlong forms, surrogates and values above U+10FFFF. -/
def utf8Valid : List Nat → Bool
  | [] => true
  | b :: rest =>
    if b ≤ 0x7F then utf8Valid rest
    else if 0xC2 ≤ b ∧ b ≤ 0xDF then
      match rest with
      | c1 :: r => isCont c1 && utf8Valid r
      | _ => false
    else if b = 0xE0 then
      match rest with
      | c1 :: c2 :: r =>
        (decide (0xA0 ≤ c1) && decide (c1 ≤ 0xBF)) && isCont c2 && utf8Valid r
      | _ => false
    else if (0xE1 ≤ b ∧ b ≤ 0xEC) ∨ b = 0xEE ∨ b = 0xEF then
      match rest with
      | c1 :: c2 :: r => isCont c1 && isCont c2 && utf8Valid r
      | _ => false
    else if b = 0xED then
      match rest with
      | c1 :: c2 :: r =>
        (decide (0x80 ≤ c1) && decide (c1 ≤ 0x9F)) && isCont c2 && utf8Valid r
      | _ => false
    else if b = 0xF0 then
      match rest with
      | c1 :: c2 :: c3 :: r =>
        (decide (0x90 ≤ c1) && decide (c1 ≤ 0xBF)) && isCont c2 && isCont c3 &&
          utf8Valid r
      | _ => false
    else if 0xF1 ≤ b ∧ b ≤ 0xF3 then
      match rest with
      | c1 :: c2 :: c3 :: r => isCont c1 && isCont c2 && isCont c3 && utf8Valid r
      | _ => false
    else if b = 0xF4 then
      match rest with
      | c1 :: c2 :: c3 :: r =>
        (decide (0x80 ≤ c1) && decide (c1 ≤ 0x8F)) && isCont c2 && isCont c3 &&
          utf8Valid r
      | _ => false
    else false

/-- `read_utf8`: the `core::str::from_utf8` gate; on success the pushed string
is exactly these bytes. -/
def read_utf8 (l : List Nat) : Except IOErr (List Nat) :=
  if utf8Valid l then .ok l else .error .invalidData

/-- The `while utf_index + 4 < to_push.len()` scan of
`read_to_string`/`read_line`: returns the validated prefix length. Fuel
`l.length + 1` always suffices (each step advances by at least one byte). -/
def scanMid : Nat → List Nat → Nat → Option (Except IOErr Nat)
  | 0, _, _ => none
  | fuel + 1, l, i =>
    if i + 4 < l.length then
      match next_utf8 l i with
      | .error e => some (.error e)
      | .ok k => scanMid fuel l (i + k)
    else some (.ok i)

/-- The `while utf_index < to_push.len()` scan of `read_line`'s
delimiter-found path. -/
def scanFull : Nat → List Nat → Nat → Option (Except IOErr Unit)
  | 0, _, _ => none
  | fuel + 1, l, i =>
    if i < l.length then
      match next_utf8 l i with
      | .error e => some (.error e)
      | .ok k => scanFull fuel l (i + k)
    else some (.ok ())

/-- The end-of-stream validation loop of `read_to_string`. `none` models the
`unreachable!()` panic hit when a leading byte with `utf8_len = 0` survives to
this point. -/
def finalValidate : Nat → List Nat → Nat → Option (Except IOErr Unit)
  | 0, _, _ => none
  | fuel + 1, l, i =>
    if l.length ≤ i then some (.ok ())
    else
      let len := utf8_len (l.getD i 0)
      if l.length - i < len then some (.error .invalidData)
      else
        match len with
        | 1 => finalValidate fuel l (i + 1)
        | 2 =>
          match utf8_cont_assert (l.getD (i + 1) 0) with
          | .error e => some (.error e)
          | .ok _ => finalValidate fuel l (i + 2)
        | 3 =>
          match utf8_cont_assert (l.getD (i + 1) 0) with
          | .error e => some (.error e)
          | .ok _ =>
            match utf8_cont_assert (l.getD (i + 2) 0) with
            | .error e => some (.error e)
            | .ok _ => finalValidate fuel l (i + 3)
        | 4 =>
          match utf8_cont_assert (l.getD (i + 1) 0) with
          | .error e => some (.error e)
          | .ok _ =>
            match utf8_cont_assert (l.getD (i + 2) 0) with
            | .error e => some (.error e)
            | .ok _ =>
              match utf8_cont_assert (l.getD (i + 3) 0) with
              | .error e => some (.error e)
              | .ok _ => finalValidate fuel l (i + 4)
        | _ => none

/-- Loop of `read_to_string`: pushes the complete-character prefix of the
resident run (withholding up to 4 trailing bytes), refills, and on
end-of-stream validates and pushes the withheld tail. The returned `Nat` is
the `Ok` count, the returned list the bytes appended to the string. -/
def readToStringLoop :
    Nat → UnownedReadBuffer → RStream →
    Option (Except IOErr Nat × UnownedReadBuffer × RStream × List Nat)
  | 0, _, _ => none
  | fuel + 1, b, s =>
    let tp := resident b
    match scanMid (tp.length + 1) tp 0 with
    | none => none
    | some (.error e) => some (.error e, b, s, [])
    | some (.ok ui) =>
      match (if 0 < ui then read_utf8 (tp.take ui) else .ok []) with
      | .error e => some (.error e, b, s, [])
      | .ok app1 =>
        let b1 : UnownedReadBuffer :=
          if 0 < ui then { b with read_count := b.read_count + ui } else b
        match feed b1 s with
        | (.error e, b2, s2) => some (.error e, b2, s2, app1)
        | (.ok true, b2, s2) =>
          match readToStringLoop fuel b2 s2 with
          | none => none
          | some (r, b3, s3, app2) => some (r.map (· + ui), b3, s3, app1 ++ app2)
        | (.ok false, b2, s2) =>
          let t2 := resident b2
          match finalValidate (t2.length + 1) t2 0 with
          | none => none
          | some (.error e) => some (.error e, b2, s2, app1)
          | some (.ok _) =>
            match read_utf8 t2 with
            | .error e => some (.error e, b2, s2, app1)
            | .ok app2 => some (.ok (ui + t2.length), b2, s2, app1 ++ app2)

/-- `read_to_string(read, buf)`. -/
def read_to_string (fuel : Nat) (b : UnownedReadBuffer) (s : RStream) :
    Option (Except IOErr Nat × UnownedReadBuffer × RStream × List Nat) :=
  if available b = 0 then
    match feed b s with
    | (.error e, b', s') => some (.error e, b', s', [])
    | (.ok false, b', s') => some (.ok 0, b', s', [])
    | (.ok true, b', s') => readToStringLoop fuel b' s'
  else readToStringLoop fuel b s

/-- Loop of `read_line` (`\n` = byte 10). -/
def readLineLoop :
    Nat → UnownedReadBuffer → RStream → Nat →
    Option (Except IOErr Nat × UnownedReadBuffer × RStream × List Nat)
  | 0, _, _, _ => none
  | fuel + 1, b, s, count =>
    match findByte (resident b) 10 with
    | some i =>
      let tp := (resident b).take (i + 1)
      match scanFull (tp.length + 1) tp 0 with
      | none => none
      | some (.error e) => some (.error e, b, s, [])
      | some (.ok _) =>
        match read_utf8 tp with
        | .error e => some (.error e, b, s, [])
        | .ok app =>
          some (.ok (count + tp.length),
                { b with read_count := b.read_count + tp.length }, s, app)
    | none =>
      let tp := resident b
      match scanMid (tp.length + 1) tp 0 with
      | none => none
      | some (.error e) => some (.error e, b, s, [])
      | some (.ok ui) =>
        match (if 0 < ui then read_utf8 (tp.take ui) else .ok []) with
        | .error e => some (.error e, b, s, [])
        | .ok app1 =>
          let b1 : UnownedReadBuffer :=
            if 0 < ui then { b with read_count := b.read_count + ui } else b
          match feed b1 s with
          | (.error e, b2, s2) => some (.error e, b2, s2, app1)
          | (.ok false, b2, s2) => some (.ok (count + ui), b2, s2, app1)
          | (.ok true, b2, s2) =>
            match readLineLoop fuel b2 s2 (count + ui) with
            | none => none
            | some (r, b3, s3, app2) => some (r, b3, s3, app1 ++ app2)

/-- `read_line(read, buf)`. -/
def read_line (fuel : Nat) (b : UnownedReadBuffer) (s : RStream) :
    Option (Except IOErr Nat × UnownedReadBuffer × RStream × List Nat) :=
  if available b = 0 then
    match feed b s with
    | (.error e, b', s') => some (.error e, b', s', [])
    | (.ok false, b', s') => some (.ok 0, b', s', [])
    | (.ok true, b', s') => readLineLoop fuel b' s' 0
  else readLineLoop fuel b s 0

/-- A byte sink: `sent` accumulates the bytes it has accepted; `oracle i`
decides the behavior of its `i`-th write/flush call (`none` = error,
`some k` = accept `min k slice_len` bytes / flush successfully). -/
structure WStream where
  sent : List Nat
  oracle : Nat → Option Nat
  calls : Nat

/-- One `Write::write` call with the slice `d`. -/
def streamWrite (s : WStream) (d : List Nat) : Except IOErr Nat × WStream :=
  match s.oracle s.calls with
  | none => (.error (.streamErr s.calls), { s with calls := s.calls + 1 })
  | some k =>
    let m := min k d.length
    (.ok m,
     { sent := s.sent ++ d.take m, oracle := s.oracle, calls := s.calls + 1 })

/-- One `Write::flush` call. -/
def streamFlush (s : WStream) : Except IOErr Unit × WStream :=
  match s.oracle s.calls with
  | none => (.error (.streamErr s.calls), { s with calls := s.calls + 1 })
  | some _ => (.ok (), { s with calls := s.calls + 1 })

/-- `UnownedWriteBuffer<S>`. -/
structure UnownedWriteBuffer where
  fill_count : Nat
  buffer : List Nat
deriving DecidableEq, Repr

/-- `UnownedWriteBuffer::new()`. -/
def freshWrite (S : Nat) : UnownedWriteBuffer :=
  { fill_count := 0, buffer := List.replicate S 0 }

/-- The not-yet-flushed bytes `buffer[..fill_count]`. -/
def wresident (b : UnownedWriteBuffer) : List Nat :=
  b.buffer.take b.fill_count

/-- `available()`: remaining capacity of the write buffer. -/
def wavailable (b : UnownedWriteBuffer) : Nat :=
  b.buffer.length - b.fill_count

/-- The write-buffer invariant `0 <= fill_count <= S` with fixed storage. -/
def WInv (S : Nat) (b : UnownedWriteBuffer) : Prop :=
  b.fill_count ≤ S ∧ b.buffer.length = S

instance (S : Nat) (b : UnownedWriteBuffer) : Decidable (WInv S b) := by
  unfold WInv; infer_instance

/-- The `while count < fill_count` loop of `push`: on a write error after
`count > 0` bytes were sent, `buffer[count..fill_count]` is compacted to the
front and `fill_count` reduced by `count` before the error surfaces. A sink
accepting 0 bytes forever makes this loop run forever (`none` for any fuel). -/
def pushLoop :
    Nat → UnownedWriteBuffer → WStream → Nat →
    Option (Except IOErr Unit × UnownedWriteBuffer × WStream)
  | 0, _, _, _ => none
  | fuel + 1, b, s, count =>
    if count < b.fill_count then
      match streamWrite s ((b.buffer.take b.fill_count).drop count) with
      | (.ok cnt, s') => pushLoop fuel b s' (count + cnt)
      | (.error e, s') =>
        if count = 0 then some (.error e, b, s')
        else
          some (.error e,
                { b with
                  buffer := copyToFront b.buffer count b.fill_count
                  fill_count := b.fill_count - count }, s')
    else some (.ok (), { b with fill_count := 0 }, s)

/-- `push(write)`. -/
def push (fuel : Nat) (b : UnownedWriteBuffer) (s : WStream) :
    Option (Except IOErr Unit × UnownedWriteBuffer × WStream) :=
  if b.fill_count = 0 then some (.ok (), b, s) else pushLoop fuel b s 0

/-- `flush(write)`: `push`, then the sink's own flush. -/
def flush (fuel : Nat) (b : UnownedWriteBuffer) (s : WStream) :
    Option (Except IOErr Unit × UnownedWriteBuffer × WStream) :=
  match push fuel b s with
  | none => none
  | some (.error e, b', s') => some (.error e, b', s')
  | some (.ok _, b', s') =>
    match streamFlush s' with
    | (.error e, s2) => some (.error e, b', s2)
    | (.ok _, s2) => some (.ok (), b', s2)

/-- `try_write(buffer)` (no stream I/O): bytes copied into free capacity. -/
def try_write (b : UnownedWriteBuffer) (d : List Nat) :
    Nat × UnownedWriteBuffer :=
  if d = [] then (0, b)
  else if wavailable b = 0 then (0, b)
  else if wavailable b < d.length then
    (wavailable b,
     { b with
       buffer := writeAt b.buffer b.fill_count (d.take (wavailable b))
       fill_count := b.fill_count + wavailable b })
  else
    (d.length,
     { b with
       buffer := writeAt b.buffer b.fill_count d
       fill_count := b.fill_count + d.length })

/-- `write(write, buffer)`: pushes once if the buffer is full, then copies as
much of `d` as fits. -/
def write (fuel : Nat) (b : UnownedWriteBuffer) (s : WStream) (d : List Nat) :
    Option (Except IOErr Nat × UnownedWriteBuffer × WStream) :=
  if d = [] then some (.ok 0, b, s)
  else if wavailable b = 0 then
    match push fuel b s with
    | none => none
    | some (.error e, b', s') => some (.error e, b', s')
    | some (.ok _, b', s') =>
      let av := b'.buffer.length
      if av < d.length then
        some (.ok av,
              { b' with
                buffer := writeAt b'.buffer b'.fill_count (d.take av)
                fill_count := b'.fill_count + av }, s')
      else
        some (.ok d.length,
              { b' with
                buffer := writeAt b'.buffer b'.fill_count d
                fill_count := b'.fill_count + d.length }, s')
  else
    let av := wavailable b
    if av < d.length then
      some (.ok av,
            { b with
              buffer := writeAt b.buffer b.fill_count (d.take av)
              fill_count := b.fill_count + av }, s)
    else
      some (.ok d.length,
            { b with
              buffer := writeAt b.buffer b.fill_count d
              fill_count := b.fill_count + d.length }, s)

/-- Loop of `write_all`; `pfuel` refuels each inner `push`. The
`if count + av >= d.length` early return inside the partial branch mirrors the
source's (unreachable) check. -/
def writeAllLoop (pfuel : Nat) :
    Nat → UnownedWriteBuffer → WStream → List Nat → Nat →
    Option (Except IOErr Unit × UnownedWriteBuffer × WStream)
  | 0, _, _, _, _ => none
  | fuel + 1, b, s, d, count =>
    let rem := d.length - count
    if wavailable b = 0 then
      match push pfuel b s with
      | none => none
      | some (.error e, b', s') => some (.error e, b', s')
      | some (.ok _, b', s') =>
        let av := b'.buffer.length
        if av < rem then
          let b2 : UnownedWriteBuffer :=
            { b' with
              buffer := writeAt b'.buffer b'.fill_count ((d.drop count).take av)
              fill_count := b'.fill_count + av }
          if d.length ≤ count + av then some (.ok (), b2, s')
          else writeAllLoop pfuel fuel b2 s' d (count + av)
        else
          some (.ok (),
                { b' with
                  buffer := writeAt b'.buffer b'.fill_count (d.drop count)
                  fill_count := b'.fill_count + rem }, s')
    else
      let av := wavailable b
      if av < rem then
        let b2 : UnownedWriteBuffer :=
          { b with
            buffer := writeAt b.buffer b.fill_count ((d.drop count).take av)
            fill_count := b.fill_count + av }
        if d.length ≤ count + av then some (.ok (), b2, s)
        else writeAllLoop pfuel fuel b2 s d (count + av)
      else
        some (.ok (),
              { b with
                buffer := writeAt b.buffer b.fill_count (d.drop count)
                fill_count := b.fill_count + rem }, s)

/-- `write_all(write, buffer)`. -/
def write_all (pfuel fuel : Nat) (b : UnownedWriteBuffer) (s : WStream)
    (d : List Nat) :
    Option (Except IOErr Unit × UnownedWriteBuffer × WStream) :=
  if d = [] then some (.ok (), b, s) else writeAllLoop pfuel fuel b s d 0

/-- Driver for the round-trip property: repeatedly call `read` with per-call
output-slice sizes `g 0, g 1, ...` until it reports 0 bytes, concatenating
everything copied out. -/
def readDriver (g : Nat → Nat) :
    Nat → Nat → UnownedReadBuffer → RStream → List Nat → Option (List Nat)
  | 0, _, _, _, _ => none
  | fuel + 1, i, b, s, acc =>
    match read b s (g i) with
    | (.error _, _, _) => none
    | (.ok out, b', s') =>
      if out.isEmpty then some acc
      else readDriver g fuel (i + 1) b' s' (acc ++ out)

/-- A source that never errors and, while data remains, always reports at
least one byte: the behavior of any honest `Read` implementation. -/
def goodOracle (o : Nat → Option Nat) : Prop :=
  ∀ i, ∃ k, o i = some k ∧ 1 ≤ k

/-- A sink that, on every call, either errors or accepts at least one byte:
such sinks always make progress. -/
def goodWOracle (o : Nat → Option Nat) : Prop :=
  ∀ i, o i = none ∨ ∃ k, o i = some k ∧ 1 ≤ k

/-- A sink that, from call `c` on, always reports `Ok(0)` ("wrote 0 bytes,
no error"). -/
def zeroFrom (o : Nat → Option Nat) (c : Nat) : Prop :=
  ∀ i, c ≤ i → o i = some 0

/-! ### Basic lemmas about the storage helpers -/

theorem copyToFront_length (l : List Nat) (a c : Nat) (h : c ≤ l.length) :
    (copyToFront l a c).length = l.length := by
  simp only [copyToFront, List.length_append, List.length_take, List.length_drop]
  omega

theorem copyToFront_front (l : List Nat) (a c : Nat) (hac : a ≤ c)
    (h : c ≤ l.length) :
    (copyToFront l a c).take (c - a) = (l.take c).drop a := by
  have hseg : ((l.drop a).take (c - a)).length = c - a := by
    simp only [List.length_take, List.length_drop]; omega
  simp only [copyToFront]
  rw [List.take_append_of_le_length (by rw [hseg])]
  rw [List.drop_take]
  exact List.take_of_length_le (le_of_eq hseg)

theorem writeAt_length (l d : List Nat) (p : Nat) (h : p + d.length ≤ l.length) :
    (writeAt l p d).length = l.length := by
  simp only [writeAt, List.length_append, List.length_take, List.length_drop]
  omega

theorem writeAt_front (l d : List Nat) (p : Nat) (h : p ≤ l.length) :
    (writeAt l p d).take (p + d.length) = l.take p ++ d := by
  have h1 : (l.take p ++ d).length = p + d.length := by
    simp only [List.length_append, List.length_take]; omega
  simp only [writeAt, List.append_assoc]
  rw [← List.append_assoc]
  rw [List.take_append_of_le_length (by rw [h1])]
  rw [List.take_of_length_le (by rw [h1])]

theorem resident_length (S : Nat) (b : UnownedReadBuffer) (h : RInv S b) :
    (resident b).length = available b := by
  obtain ⟨h1, h2, h3⟩ := h
  simp only [resident, available, List.length_drop, List.length_take]
  omega

theorem resident_eq_nil (S : Nat) (b : UnownedReadBuffer) (h : RInv S b)
    (h0 : available b = 0) : resident b = [] :=
  List.eq_nil_of_length_eq_zero ((resident_length S b h).trans h0)

theorem resident_advance (b : UnownedReadBuffer) (k : Nat) :
    resident { b with read_count := b.read_count + k } = (resident b).drop k := by
  simp only [resident, List.drop_drop]

theorem resident_reset (b : UnownedReadBuffer) :
    resident { b with read_count := 0, fill_count := 0 } = [] := by
  simp [resident]

theorem RInv_advance (S : Nat) (b : UnownedReadBuffer) (k : Nat) (h : RInv S b)
    (hk : k ≤ available b) :
    RInv S { b with read_count := b.read_count + k } := by
  obtain ⟨h1, h2, h3⟩ := h
  simp only [available] at hk
  refine ⟨?_, h2, h3⟩
  show b.read_count + k ≤ b.fill_count
  omega

theorem RInv_reset (S : Nat) (b : UnownedReadBuffer) (h : RInv S b) :
    RInv S { b with read_count := 0, fill_count := 0 } := by
  obtain ⟨h1, h2, h3⟩ := h
  exact ⟨Nat.zero_le _, Nat.zero_le _, h3⟩

theorem RInv_freshRead (S : Nat) : RInv S (freshRead S) :=
  ⟨Nat.le_refl 0, Nat.zero_le S, List.length_replicate ..⟩

/-! ### `compact` -/

theorem compact_spec (S : Nat) (b : UnownedReadBuffer) (h : RInv S b) :
    RInv S (compact b) ∧ (compact b).read_count = 0 ∧
    (compact b).fill_count = available b ∧ resident (compact b) = resident b := by
  obtain ⟨h1, h2, h3⟩ := h
  by_cases hrc : 0 < b.read_count
  · by_cases hlt : b.read_count < b.fill_count
    · have hcf : compact b =
          { read_count := 0, fill_count := b.fill_count - b.read_count,
            buffer := copyToFront b.buffer b.read_count b.fill_count } := by
        unfold compact; rw [if_pos hrc, if_pos hlt]
      rw [hcf]
      have hlen := copyToFront_length b.buffer b.read_count b.fill_count
        (by omega)
      have hfront := copyToFront_front b.buffer b.read_count b.fill_count
        (by omega) (by omega)
      refine ⟨⟨Nat.zero_le _, ?_, ?_⟩, rfl, ?_, ?_⟩
      · show b.fill_count - b.read_count ≤ S
        omega
      · show (copyToFront b.buffer b.read_count b.fill_count).length = S
        rw [hlen, h3]
      · show b.fill_count - b.read_count = available b
        simp only [available]
      · simp only [resident, List.drop_zero]
        exact hfront
    · have heq : b.read_count = b.fill_count := by omega
      have hcf : compact b =
          { read_count := 0, fill_count := b.fill_count - b.read_count,
            buffer := b.buffer } := by
        unfold compact; rw [if_pos hrc, if_neg hlt]
      rw [hcf]
      refine ⟨⟨Nat.zero_le _, ?_, h3⟩, rfl, ?_, ?_⟩
      · show b.fill_count - b.read_count ≤ S
        omega
      · show b.fill_count - b.read_count = available b
        simp only [available]
      simp only [resident]
      have hz : b.fill_count - b.read_count = 0 := by omega
      rw [hz, List.take_zero, List.drop_nil]
      symm
      apply List.eq_nil_of_length_eq_zero
      simp only [List.length_drop, List.length_take]
      omega
  · have hcf : compact b = b := by unfold compact; rw [if_neg hrc]
    have hrc0 : b.read_count = 0 := by omega
    rw [hcf]
    exact ⟨⟨h1, h2, h3⟩, hrc0, by simp only [available]; omega, rfl⟩

/-! ### `feed` -/

theorem feed_eq_none (b : UnownedReadBuffer) (s : RStream)
    (ho : s.oracle s.calls = none) :
    feed b s = (.error (.streamErr s.calls), compact b,
      { s with calls := s.calls + 1 }) := by
  simp only [feed, streamRead, ho]

theorem feed_eq_some (b : UnownedReadBuffer) (s : RStream) (k : Nat)
    (ho : s.oracle s.calls = some k) :
    feed b s =
      (if (s.data.take (min k (min ((compact b).buffer.length -
            (compact b).fill_count) s.data.length))).length = 0 then
        (.ok false, compact b,
         { data := s.data.drop (min k (min ((compact b).buffer.length -
             (compact b).fill_count) s.data.length)),
           oracle := s.oracle, calls := s.calls + 1 })
      else
        (.ok true,
         { compact b with
           buffer := writeAt (compact b).buffer (compact b).fill_count
             (s.data.take (min k (min ((compact b).buffer.length -
               (compact b).fill_count) s.data.length)))
           fill_count := (compact b).fill_count +
             (s.data.take (min k (min ((compact b).buffer.length -
               (compact b).fill_count) s.data.length))).length },
         { data := s.data.drop (min k (min ((compact b).buffer.length -
             (compact b).fill_count) s.data.length)),
           oracle := s.oracle, calls := s.calls + 1 })) := by
  simp only [feed, streamRead, ho]

theorem feed_error (S : Nat) (b : UnownedReadBuffer) (s : RStream)
    (e : IOErr) (b' : UnownedReadBuffer) (s' : RStream) (h : RInv S b)
    (hf : feed b s = (.error e, b', s')) :
    RInv S b' ∧ resident b' = resident b ∧ b'.read_count = 0 ∧
    available b' = available b ∧
    s'.data = s.data ∧ s'.oracle = s.oracle ∧ s'.calls = s.calls + 1 ∧
    e = .streamErr s.calls ∧ s.oracle s.calls = none := by
  obtain ⟨hi, hr0, hfc, hres⟩ := compact_spec S b h
  cases ho : s.oracle s.calls with
  | none =>
    rw [feed_eq_none b s ho] at hf
    simp only [Prod.mk.injEq, Except.error.injEq] at hf
    obtain ⟨he, hb, hs⟩ := hf
    subst he; subst hb; subst hs
    refine ⟨hi, hres, hr0, ?_, rfl, rfl, rfl, rfl, rfl⟩
    have h5 := hfc
    simp only [available] at h5 ⊢
    omega
  | some k =>
    rw [feed_eq_some b s k ho] at hf
    split at hf <;> simp_all

theorem feed_eof (S : Nat) (b : UnownedReadBuffer) (s : RStream)
    (b' : UnownedReadBuffer) (s' : RStream) (h : RInv S b)
    (hf : feed b s = (.ok false, b', s')) :
    RInv S b' ∧ resident b' = resident b ∧ b'.read_count = 0 ∧
    available b' = available b ∧
    s'.data = s.data ∧ s'.oracle = s.oracle ∧ s'.calls = s.calls + 1 ∧
    streamRead s ((compact b).buffer.length - (compact b).fill_count) =
      (.ok [], s') ∧
    ∃ k, s.oracle s.calls = some k ∧
      (k = 0 ∨ S ≤ available b ∨ s.data = []) := by
  obtain ⟨hi, hr0, hfc, hres⟩ := compact_spec S b h
  cases ho : s.oracle s.calls with
  | none => rw [feed_eq_none b s ho] at hf; simp_all
  | some k =>
    rw [feed_eq_some b s k ho] at hf
    split at hf
    · rename_i hcond
      simp only [Prod.mk.injEq] at hf
      obtain ⟨-, hb, hs⟩ := hf
      rw [List.length_take, hi.2.2, hfc] at hcond
      have hdisj : k = 0 ∨ S ≤ available b ∨ s.data.length = 0 := by omega
      have hdrop : s.data.drop (min k (min ((compact b).buffer.length -
          (compact b).fill_count) s.data.length)) = s.data := by
        rw [hi.2.2, hfc]
        rcases hdisj with h0 | h0 | h0
        · rw [h0]; simp
        · have hz : min k (min (S - available b) s.data.length) = 0 := by omega
          rw [hz]; simp
        · have hnil : s.data = [] := List.eq_nil_of_length_eq_zero h0
          rw [hnil]; simp
      have htake : s.data.take (min k (min ((compact b).buffer.length -
          (compact b).fill_count) s.data.length)) = [] := by
        apply List.eq_nil_of_length_eq_zero
        rw [List.length_take, hi.2.2, hfc]
        omega
      subst hb; subst hs
      refine ⟨hi, hres, hr0, ?_, hdrop, rfl, rfl, ?_, k, rfl, ?_⟩
      · have h5 := hfc
        simp only [available] at h5 ⊢
        omega
      · simp only [streamRead, ho, Prod.mk.injEq]
        constructor
        · rw [htake]
        · trivial
      · rcases hdisj with h0 | h0 | h0
        · exact Or.inl h0
        · exact Or.inr (Or.inl h0)
        · exact Or.inr (Or.inr (List.eq_nil_of_length_eq_zero h0))
    · simp_all

theorem feed_progress (S : Nat) (b : UnownedReadBuffer) (s : RStream)
    (b' : UnownedReadBuffer) (s' : RStream) (h : RInv S b)
    (hf : feed b s = (.ok true, b', s')) :
    RInv S b' ∧ b'.read_count = 0 ∧
    s'.oracle = s.oracle ∧ s'.calls = s.calls + 1 ∧
    ∃ m, 1 ≤ m ∧ m ≤ s.data.length ∧ available b + m ≤ S ∧
      resident b' = resident b ++ s.data.take m ∧
      s'.data = s.data.drop m ∧
      available b' = available b + m ∧
      s'.data.length < s.data.length := by
  obtain ⟨hi, hr0, hfc, hres⟩ := compact_spec S b h
  cases ho : s.oracle s.calls with
  | none => rw [feed_eq_none b s ho] at hf; simp_all
  | some k =>
    rw [feed_eq_some b s k ho] at hf
    split at hf
    · simp_all
    · rename_i hcond
      simp only [Prod.mk.injEq] at hf
      obtain ⟨-, hb, hs⟩ := hf
      set m := min k (min ((compact b).buffer.length -
        (compact b).fill_count) s.data.length) with hm
      have hmlen : m ≤ s.data.length := by rw [hm]; omega
      have htlen : (s.data.take m).length = m := by
        rw [List.length_take]; omega
      have hm1 : 1 ≤ m := by
        rcases Nat.eq_zero_or_pos m with h0 | h1
        · exact absurd (by rw [htlen, h0]) hcond
        · exact h1
      have hmS : available b + m ≤ S := by
        have h6 := hm
        rw [hi.2.2, hfc] at h6
        omega
      have hfcS : (compact b).fill_count ≤ S := by rw [hfc]; omega
      subst hb; subst hs
      refine ⟨⟨?_, ?_, ?_⟩, hr0, rfl, rfl, m, hm1, hmlen, hmS, ?_, rfl, ?_, ?_⟩
      · show (compact b).read_count ≤ (compact b).fill_count +
          (s.data.take m).length
        rw [hr0]; omega
      · show (compact b).fill_count + (s.data.take m).length ≤ S
        rw [htlen, hfc]
        exact hmS
      · show (writeAt (compact b).buffer (compact b).fill_count
          (s.data.take m)).length = S
        rw [writeAt_length]
        · exact hi.2.2
        · rw [hi.2.2, htlen, hfc]
          exact hmS
      · simp only [resident, hr0, List.drop_zero]
        rw [writeAt_front _ _ _ (by rw [hi.2.2]; exact hfcS)]
        congr 1
        have h7 := hres
        simp only [resident, hr0, List.drop_zero] at h7
        exact h7
      · simp only [available]
        show (compact b).fill_count + (s.data.take m).length -
          (compact b).read_count = b.fill_count - b.read_count + m
        have h5 := hfc
        simp only [available] at h5
        rw [htlen, hr0, h5]
        omega
      · show (s.data.drop m).length < s.data.length
        rw [List.length_drop]
        omega

/-! ### `serveRead` and `read` -/

theorem serveRead_spec (S : Nat) (b : UnownedReadBuffer) (n : Nat)
    (out : List Nat) (b2 : UnownedReadBuffer) (h : RInv S b)
    (hs : serveRead b n = (out, b2)) :
    RInv S b2 ∧ out ++ resident b2 = resident b ∧
    out.length = min n (available b) ∧
    (out.length < n →
      b2.read_count = 0 ∧ b2.fill_count = 0 ∧ resident b2 = []) := by
  unfold serveRead at hs
  by_cases hn : n ≤ available b
  · rw [if_pos hn] at hs
    simp only [Prod.mk.injEq] at hs
    obtain ⟨h1, h2⟩ := hs
    subst h1; subst h2
    refine ⟨RInv_advance S b n h hn, ?_, ?_, ?_⟩
    · rw [resident_advance]
      exact List.take_append_drop n (resident b)
    · rw [List.length_take, resident_length S b h]
    · intro hlt
      rw [List.length_take, resident_length S b h] at hlt
      omega
  · rw [if_neg hn] at hs
    simp only [Prod.mk.injEq] at hs
    obtain ⟨h1, h2⟩ := hs
    subst h1; subst h2
    refine ⟨RInv_reset S b h, ?_, ?_, ?_⟩
    · simp [resident_reset]
    · rw [resident_length S b h]
      omega
    · intro _
      exact ⟨rfl, rfl, resident_reset b⟩

theorem read_ok_spec (S : Nat) (b : UnownedReadBuffer) (s : RStream) (n : Nat)
    (out : List Nat) (b' : UnownedReadBuffer) (s' : RStream) (h : RInv S b)
    (hf : read b s n = (.ok out, b', s')) :
    RInv S b' ∧ s'.oracle = s.oracle ∧
    out ++ resident b' ++ s'.data = resident b ++ s.data := by
  unfold read at hf
  by_cases hn0 : n = 0
  · rw [if_pos hn0] at hf
    simp only [Prod.mk.injEq, Except.ok.injEq] at hf
    obtain ⟨h1, h2, h3⟩ := hf
    subst h1; subst h2; subst h3
    exact ⟨h, rfl, rfl⟩
  · rw [if_neg hn0] at hf
    by_cases hav : available b = 0
    · rw [if_pos hav] at hf
      rcases hr : feed b s with ⟨res, b1, s1⟩
      rw [hr] at hf
      match res with
      | .error e => simp at hf
      | .ok false =>
        simp only [Prod.mk.injEq, Except.ok.injEq] at hf
        obtain ⟨h1, h2, h3⟩ := hf
        subst h1; subst h2; subst h3
        obtain ⟨j1, j2, j3, j4, j5, j6, j7, j8, j9⟩ := feed_eof S b s b1 s1 h hr
        exact ⟨j1, j6, by rw [j2, j5]; simp⟩
      | .ok true =>
        dsimp only at hf
        rcases hsv : serveRead b1 n with ⟨out1, b2⟩
        rw [hsv] at hf
        simp only [Prod.mk.injEq, Except.ok.injEq] at hf
        obtain ⟨h1, h2, h3⟩ := hf
        subst h1; subst h2; subst h3
        obtain ⟨j1, j2, j3, j4, m, k1, k2, k3, k4, k5, k6, k7⟩ :=
          feed_progress S b s b1 s1 h hr
        obtain ⟨w1, w2, w3, w4⟩ := serveRead_spec S b1 n out1 b2 j1 hsv
        refine ⟨w1, j3, ?_⟩
        rw [w2, k4, k5, List.append_assoc, List.take_append_drop]
    · rw [if_neg hav] at hf
      rcases hsv : serveRead b n with ⟨out1, b2⟩
      rw [hsv] at hf
      simp only [Prod.mk.injEq, Except.ok.injEq] at hf
      obtain ⟨h1, h2, h3⟩ := hf
      subst h1; subst h2; subst h3
      obtain ⟨w1, w2, w3, w4⟩ := serveRead_spec S b n out1 b2 h hsv
      refine ⟨w1, rfl, ?_⟩
      rw [w2]

theorem read_error_spec (S : Nat) (b : UnownedReadBuffer) (s : RStream)
    (n : Nat) (e : IOErr) (b' : UnownedReadBuffer) (s' : RStream)
    (h : RInv S b) (hf : read b s n = (.error e, b', s')) :
    RInv S b' ∧ s'.oracle = s.oracle ∧ resident b' = resident b ∧
    s'.data = s.data ∧ e = .streamErr s.calls ∧ s.oracle s.calls = none := by
  unfold read at hf
  by_cases hn0 : n = 0
  · rw [if_pos hn0] at hf; simp at hf
  · rw [if_neg hn0] at hf
    by_cases hav : available b = 0
    · rw [if_pos hav] at hf
      rcases hr : feed b s with ⟨res, b1, s1⟩
      rw [hr] at hf
      match res with
      | .error e2 =>
        simp only [Prod.mk.injEq, Except.error.injEq] at hf
        obtain ⟨h1, h2, h3⟩ := hf
        subst h2; subst h3
        obtain ⟨j1, j2, j3, j4, j5, j6, j7, j8, j9⟩ :=
          feed_error S b s e2 b1 s1 h hr
        exact ⟨j1, j6, j2, j5, h1 ▸ j8, j9⟩
      | .ok false => simp at hf
      | .ok true =>
        dsimp only at hf
        rcases hsv : serveRead b1 n with ⟨out1, b2⟩
        rw [hsv] at hf
        simp at hf
    · rw [if_neg hav] at hf
      rcases hsv : serveRead b n with ⟨out1, b2⟩
      rw [hsv] at hf
      simp at hf

theorem read_good (S : Nat) (b : UnownedReadBuffer) (s : RStream) (n : Nat)
    (res : Except IOErr (List Nat)) (b' : UnownedReadBuffer) (s' : RStream)
    (h : RInv S b) (hS : 16 ≤ S) (hg : goodOracle s.oracle) (hn : 1 ≤ n)
    (hf : read b s n = (res, b', s')) :
    ∃ out, res = .ok out ∧ RInv S b' ∧ s'.oracle = s.oracle ∧
      out ++ resident b' ++ s'.data = resident b ++ s.data ∧
      (out = [] → resident b = [] ∧ s.data = []) := by
  match res with
  | .error e =>
    obtain ⟨j1, j2, j3, j4, j5, j6⟩ := read_error_spec S b s n e b' s' h hf
    obtain ⟨k, hk, -⟩ := hg s.calls
    rw [j6] at hk
    exact absurd hk (by simp)
  | .ok out =>
    obtain ⟨j1, j2, j3⟩ := read_ok_spec S b s n out b' s' h hf
    refine ⟨out, rfl, j1, j2, j3, ?_⟩
    intro hout
    subst hout
    unfold read at hf
    rw [if_neg (by omega)] at hf
    by_cases hav : available b = 0
    · rw [if_pos hav] at hf
      rcases hr : feed b s with ⟨fres, b1, s1⟩
      rw [hr] at hf
      match fres with
      | .error e2 => simp at hf
      | .ok false =>
        obtain ⟨w1, w2, w3, w4, w5, w6, w7, w8, k, hk, hd⟩ :=
          feed_eof S b s b1 s1 h hr
        refine ⟨resident_eq_nil S b h hav, ?_⟩
        obtain ⟨k2, hk2, hk21⟩ := hg s.calls
        rw [hk] at hk2
        have hkk : k = k2 := by
          have := hk2
          simp only [Option.some.injEq] at this
          omega
        rcases hd with h0 | h0 | h0
        · omega
        · rw [hav] at h0; omega
        · exact h0
      | .ok true =>
        dsimp only at hf
        rcases hsv : serveRead b1 n with ⟨out1, b2⟩
        rw [hsv] at hf
        simp only [Prod.mk.injEq, Except.ok.injEq] at hf
        obtain ⟨h1, h2, h3⟩ := hf
        obtain ⟨w1, w2, w3, w4, m, k1, k2, k3, k4, k5, k6, k7⟩ :=
          feed_progress S b s b1 s1 h hr
        obtain ⟨v1, v2, v3, v4⟩ := serveRead_spec S b1 n out1 b2 w1 hsv
        rw [h1] at v3
        simp only [List.length_nil] at v3
        exfalso
        omega
    · rw [if_neg hav] at hf
      rcases hsv : serveRead b n with ⟨out1, b2⟩
      rw [hsv] at hf
      simp only [Prod.mk.injEq, Except.ok.injEq] at hf
      obtain ⟨h1, h2, h3⟩ := hf
      obtain ⟨v1, v2, v3, v4⟩ := serveRead_spec S b n out1 b2 h hsv
      rw [h1] at v3
      simp only [List.length_nil] at v3
      exfalso
      omega

theorem readDriver_good (S : Nat) (g : Nat → Nat) (hg : ∀ j, 1 ≤ g j)
    (hS : 16 ≤ S) :
    ∀ fuel i b s acc, RInv S b → goodOracle s.oracle →
    available b + s.data.length < fuel →
    readDriver g fuel i b s acc = some (acc ++ resident b ++ s.data) := by
  intro fuel
  induction fuel with
  | zero => intro i b s acc _ _ hlt; omega
  | succ fuel ih =>
    intro i b s acc h hgo hlt
    rcases hr : read b s (g i) with ⟨res, b', s'⟩
    obtain ⟨out, hres, j1, j2, j3, j4⟩ :=
      read_good S b s (g i) res b' s' h hS hgo (hg i) hr
    subst hres
    show (match read b s (g i) with
      | (.error _, _, _) => none
      | (.ok out, b', s') =>
        if out.isEmpty then some acc
        else readDriver g fuel (i + 1) b' s' (acc ++ out)) =
      some (acc ++ resident b ++ s.data)
    rw [hr]
    match out, j3, j4 with
    | [], j3, j4 =>
      obtain ⟨hrb, hsd⟩ := j4 rfl
      simp only [List.isEmpty_nil, if_true]
      rw [hrb, hsd]
      simp
    | a :: t, j3, j4 =>
      simp only [List.isEmpty_cons, Bool.false_eq_true, if_false]
      have hlen := congrArg List.length j3
      simp only [List.length_append, resident_length S b' j1,
        resident_length S b h, List.length_cons] at hlen
      rw [ih (i + 1) b' s' (acc ++ (a :: t)) j1 (by rw [j2]; exact hgo)
        (by omega)]
      congr 1
      rw [List.append_assoc, List.append_assoc, ← List.append_assoc (a :: t)]
      rw [j3, List.append_assoc]

/-! ### Claim C1 -/

/-- C1: for every finite byte sequence served by the source, every buffer
capacity `S >= 16` and every per-call output-slice size `>= 1`, repeatedly
calling `read` until it reports 0 bytes and concatenating what each call
copied out reproduces the source's byte sequence exactly, in order. -/
theorem C1_read_roundtrip (data : List Nat) (S : Nat) (g : Nat → Nat)
    (oracle : Nat → Option Nat) (hS : 16 ≤ S) (hg : ∀ j, 1 ≤ g j)
    (hor : goodOracle oracle) :
    readDriver g (data.length + 1) 0 (freshRead S)
      { data := data, oracle := oracle, calls := 0 } [] = some data := by
  have hres : resident (freshRead S) = [] := by simp [resident, freshRead]
  have hlt : available (freshRead S) + data.length < data.length + 1 := by
    simp [available, freshRead]
  rw [readDriver_good S g hg hS (data.length + 1) 0 (freshRead S)
    { data := data, oracle := oracle, calls := 0 } [] (RInv_freshRead S) hor
    hlt, hres]
  simp

/-- Witness for C1 at a concrete source, capacity and slice size. -/
theorem C1_read_roundtrip_witness :
    readDriver (fun _ => 2) 4 0 (freshRead 16)
      { data := [1, 2, 3], oracle := fun _ => some 5, calls := 0 } [] =
      some [1, 2, 3] :=
  C1_read_roundtrip [1, 2, 3] 16 (fun _ => 2) (fun _ => some 5) (by decide)
    (fun _ => by show 1 ≤ 2; decide) (fun _ => ⟨5, rfl, by decide⟩)

/-! ### Claim C9 -/

/-- C9: a `read` call with a non-empty output slice issues exactly one stream
read when the internal buffer is empty on entry and none otherwise; it returns
`Ok(0)` only when that single stream read reported 0 bytes, and end-of-stream
is never turned into an error; a partial read fully drains the buffer and
resets both cursors to 0. -/
theorem C9_read_single_stream_call (S : Nat) (b : UnownedReadBuffer)
    (s : RStream) (n : Nat) (res : Except IOErr (List Nat))
    (b' : UnownedReadBuffer) (s' : RStream) (h : RInv S b) (hn : 1 ≤ n)
    (hr : read b s n = (res, b', s')) :
    (available b = 0 → s'.calls = s.calls + 1) ∧
    (0 < available b → s' = s) ∧
    (res = .ok [] → available b = 0 ∧ streamRead s S = (.ok [], s')) ∧
    (∀ e, res = .error e → e = .streamErr s.calls) ∧
    (∀ out, res = .ok out → out.length < n →
      b'.read_count = 0 ∧ b'.fill_count = 0 ∧ resident b' = []) := by
  obtain ⟨ci, cr0, cfc, cres⟩ := compact_spec S b h
  unfold read at hr
  rw [if_neg (by omega)] at hr
  by_cases hav : available b = 0
  · rw [if_pos hav] at hr
    rcases hfd : feed b s with ⟨fres, b1, s1⟩
    rw [hfd] at hr
    match fres with
    | .error e2 =>
      simp only [Prod.mk.injEq] at hr
      obtain ⟨h1, h2, h3⟩ := hr
      subst h2; subst h3
      obtain ⟨j1, j2, j3, j4, j5, j6, j7, j8, j9⟩ :=
        feed_error S b s e2 b1 s1 h hfd
      refine ⟨fun _ => j7, fun h0 => by omega, ?_, ?_, ?_⟩
      · intro habs; rw [← h1] at habs; cases habs
      · intro e he
        rw [← h1] at he
        simp only [Except.error.injEq] at he
        rw [← he]
        exact j8
      · intro out habs; rw [← h1] at habs; cases habs
    | .ok false =>
      simp only [Prod.mk.injEq] at hr
      obtain ⟨h1, h2, h3⟩ := hr
      subst h2; subst h3
      obtain ⟨j1, j2, j3, j4, j5, j6, j7, j8, j9⟩ :=
        feed_eof S b s b1 s1 h hfd
      have hfill : b1.fill_count = 0 := by
        have h5 := j4
        rw [hav] at h5
        simp only [available, j3] at h5
        omega
      refine ⟨fun _ => j7, fun h0 => by omega, ?_, ?_, ?_⟩
      · refine fun _ => ⟨hav, ?_⟩
        rw [ci.2.2, cfc, hav, Nat.sub_zero] at j8
        exact j8
      · intro e he; rw [← h1] at he; cases he
      · intro out hout hlt
        refine ⟨j3, hfill, ?_⟩
        rw [j2]
        exact resident_eq_nil S b h hav
    | .ok true =>
      dsimp only at hr
      rcases hsv : serveRead b1 n with ⟨out1, b2⟩
      rw [hsv] at hr
      simp only [Prod.mk.injEq] at hr
      obtain ⟨h1, h2, h3⟩ := hr
      subst h2; subst h3
      obtain ⟨j1, j2, j3, j4, m, k1, k2, k3, k4, k5, k6, k7⟩ :=
        feed_progress S b s b1 s1 h hfd
      obtain ⟨v1, v2, v3, v4⟩ := serveRead_spec S b1 n out1 b2 j1 hsv
      refine ⟨fun _ => j4, fun h0 => by omega, ?_, ?_, ?_⟩
      · intro habs
        rw [← h1] at habs
        simp only [Except.ok.injEq] at habs
        rw [habs] at v3
        simp only [List.length_nil] at v3
        exfalso
        omega
      · intro e he; rw [← h1] at he; cases he
      · intro out hout hlt
        rw [← h1] at hout
        simp only [Except.ok.injEq] at hout
        subst hout
        exact v4 hlt
  · rw [if_neg hav] at hr
    rcases hsv : serveRead b n with ⟨out1, b2⟩
    rw [hsv] at hr
    simp only [Prod.mk.injEq] at hr
    obtain ⟨h1, h2, h3⟩ := hr
    subst h2; subst h3
    obtain ⟨v1, v2, v3, v4⟩ := serveRead_spec S b n out1 b2 h hsv
    refine ⟨fun h0 => by omega, fun _ => rfl, ?_, ?_, ?_⟩
    · intro habs
      rw [← h1] at habs
      simp only [Except.ok.injEq] at habs
      rw [habs] at v3
      simp only [List.length_nil] at v3
      exfalso
      omega
    · intro e he; rw [← h1] at he; cases he
    · intro out hout hlt
      rw [← h1] at hout
      simp only [Except.ok.injEq] at hout
      subst hout
      exact v4 hlt

/-- Witness for C9: a concrete partial read (2 bytes served into a 3-byte
slice) drains the buffer and resets both cursors. -/
theorem C9_read_single_stream_call_witness :
    (⟨0, 0, writeAt (freshRead 16).buffer 0 [1, 2]⟩ :
      UnownedReadBuffer).read_count = 0 ∧
    (⟨0, 0, writeAt (freshRead 16).buffer 0 [1, 2]⟩ :
      UnownedReadBuffer).fill_count = 0 ∧
    resident ⟨0, 0, writeAt (freshRead 16).buffer 0 [1, 2]⟩ = [] := by
  have h := C9_read_single_stream_call 16 (freshRead 16)
    ⟨[1, 2], fun _ => some 16, 0⟩ 3 (.ok [1, 2])
    ⟨0, 0, writeAt (freshRead 16).buffer 0 [1, 2]⟩
    ⟨[], fun _ => some 16, 1⟩
    (by decide) (by decide) (by rfl)
  exact h.2.2.2.2 [1, 2] rfl (by decide)

/-! ### `read_until_limit`: claims C6 and C7 -/

theorem findByte_lt (byte : Nat) :
    ∀ (l : List Nat) (i : Nat), findByte l byte = some i → i < l.length := by
  intro l
  induction l with
  | nil => intro i h; simp [findByte] at h
  | cons a t ih =>
    intro i h
    simp only [findByte] at h
    by_cases ha : a = byte
    · rw [if_pos ha] at h
      simp only [Option.some.injEq] at h
      subst h
      simp
    · rw [if_neg ha] at h
      simp only [Option.map_eq_some'] at h
      obtain ⟨j, hj, hji⟩ := h
      subst hji
      have := ih j hj
      simp only [List.length_cons]
      omega

theorem take_length_of_take (l : List Nat) (c : Nat) :
    l.take ((l.take c).length) = l.take c := by
  rw [List.length_take]
  rcases le_total c l.length with hc | hc
  · congr 1
    omega
  · rw [Nat.min_eq_right hc, List.take_length, List.take_of_length_le hc]

theorem readUntilLimitLoop_spec (S : Nat) (byte limit : Nat) :
    ∀ fuel count b s res b' s' app, RInv S b → count ≤ limit →
    readUntilLimitLoop fuel b s byte limit count = some (res, b', s', app) →
    RInv S b' ∧ count + app.length ≤ limit ∧
    (∀ n, res = .ok n → n = count + app.length) ∧
    app ++ resident b' ++ s'.data = resident b ++ s.data := by
  intro fuel
  induction fuel with
  | zero => intro count b s res b' s' app _ _ hr; simp [readUntilLimitLoop] at hr
  | succ fuel ih =>
    intro count b s res b' s' app h hcl hr
    simp only [readUntilLimitLoop] at hr
    set t0 := resident b with ht0
    set t1 := if limit < count + t0.length then t0.take (limit - count) else t0
      with ht1
    have ht0len : t0.length = available b := resident_length S b h
    have ht1pre : t0.take t1.length = t1 := by
      rw [ht1]
      by_cases hc : limit < count + t0.length
      · rw [if_pos hc]
        exact take_length_of_take t0 (limit - count)
      · rw [if_neg hc]
        exact List.take_length t0
    have ht1len : t1.length ≤ t0.length := by
      have hx := congrArg List.length ht1pre
      rw [List.length_take] at hx
      omega
    have hcap : count + t1.length ≤ limit := by
      rw [ht1]
      by_cases hc : limit < count + t0.length
      · rw [if_pos hc, List.length_take]
        omega
      · rw [if_neg hc]
        omega
    have ht1drop : t1 ++ t0.drop t1.length = t0 := by
      have hx := List.take_append_drop t1.length t0
      rw [ht1pre] at hx
      exact hx
    split at hr
    · -- delimiter found at index i within the clamped run
      rename_i i hfb
      simp only [Option.some.injEq, Prod.mk.injEq] at hr
      obtain ⟨h1, h2, h3, h4⟩ := hr
      subst h1; subst h2; subst h3
      rw [← h4]
      have hi : i < t1.length := findByte_lt byte t1 i hfb
      have htp : t1.take (i + 1) = t0.take (i + 1) := by
        conv_lhs => rw [← ht1pre]
        rw [List.take_take]
        congr 1
        omega
      have htplen : (t1.take (i + 1)).length = i + 1 := by
        rw [List.length_take]
        omega
      refine ⟨RInv_advance S b _ h (by rw [htplen]; omega), ?_, ?_, ?_⟩
      · rw [htplen]; omega
      · intro n hn
        simp only [Except.ok.injEq] at hn
        omega
      · rw [resident_advance, ← ht0, htplen, htp]
        rw [show t0.take (i + 1) ++ t0.drop (i + 1) ++ s.data =
          (t0.take (i + 1) ++ t0.drop (i + 1)) ++ s.data from rfl]
        rw [List.take_append_drop]
    · rename_i hfb
      split at hr
      · -- limit reached after appending the clamped run
        rename_i hlim
        simp only [Option.some.injEq, Prod.mk.injEq] at hr
        obtain ⟨h1, h2, h3, h4⟩ := hr
        subst h1; subst h2; subst h3
        rw [← h4]
        refine ⟨RInv_advance S b t1.length h (by omega), by omega, ?_, ?_⟩
        · intro n hn
          simp only [Except.ok.injEq] at hn
          omega
        · rw [resident_advance, ← ht0, ht1drop]
      · rename_i hlim
        have hb1 : RInv S { b with read_count := b.read_count + t1.length } :=
          RInv_advance S b t1.length h (by omega)
        have hres1 : resident { b with read_count := b.read_count + t1.length }
            = t0.drop t1.length := by rw [resident_advance, ← ht0]
        split at hr
        · -- the refill errored
          rename_i e2 b2 s2 hfd
          simp only [Option.some.injEq, Prod.mk.injEq] at hr
          obtain ⟨h1, h2, h3, h4⟩ := hr
          subst h1; subst h2; subst h3
          rw [← h4]
          obtain ⟨j1, j2, j3, j4, j5, j6, j7, j8, j9⟩ :=
            feed_error S _ s e2 b2 s2 hb1 hfd
          refine ⟨j1, by omega, ?_, ?_⟩
          · intro n hn; cases hn
          · rw [j2, hres1, j5, ht1drop]
        · -- end-of-stream
          rename_i b2 s2 hfd
          simp only [Option.some.injEq, Prod.mk.injEq] at hr
          obtain ⟨h1, h2, h3, h4⟩ := hr
          subst h1; subst h2; subst h3
          rw [← h4]
          obtain ⟨j1, j2, j3, j4, j5, j6, j7, j8, j9⟩ :=
            feed_eof S _ s b2 s2 hb1 hfd
          refine ⟨j1, by omega, ?_, ?_⟩
          · intro n hn
            simp only [Except.ok.injEq] at hn
            omega
          · rw [j2, hres1, j5, ht1drop]
        · -- the refill progressed; recurse
          rename_i b2 s2 hfd
          obtain ⟨j1, j2, j3, j4, m, k1, k2, k3, k4, k5, k6, k7⟩ :=
            feed_progress S _ s b2 s2 hb1 hfd
          split at hr
          · cases hr
          · rename_i res2 b3 s3 app2 hrec
            simp only [Option.some.injEq, Prod.mk.injEq] at hr
            obtain ⟨h1, h2, h3, h4⟩ := hr
            subst h1; subst h2; subst h3
            rw [← h4]
            obtain ⟨w1, w2, w3, w4⟩ := ih (count + t1.length) b2 s2 res2 b3 s3
              app2 j1 (by omega) hrec
            refine ⟨w1, by simp only [List.length_append]; omega, ?_, ?_⟩
            · intro n hn
              have := w3 n hn
              simp only [List.length_append]
              omega
            · rw [List.append_assoc t1 app2, List.append_assoc t1, w4]
              rw [k4, k5, hres1]
              rw [List.append_assoc (t0.drop t1.length), List.take_append_drop]
              rw [← List.append_assoc, ht1drop]

theorem readUntilLimitLoop_total (S : Nat) (byte limit : Nat) :
    ∀ fuel count b s, RInv S b → s.data.length < fuel →
    readUntilLimitLoop fuel b s byte limit count ≠ none := by
  intro fuel
  induction fuel with
  | zero => intro count b s _ hlt; omega
  | succ fuel ih =>
    intro count b s h hlt
    simp only [readUntilLimitLoop]
    set t1 := if limit < count + (resident b).length then
      (resident b).take (limit - count) else resident b with ht1
    have ht1le : t1.length ≤ available b := by
      rw [← resident_length S b h, ht1]
      by_cases hc : limit < count + (resident b).length
      · rw [if_pos hc, List.length_take]
        omega
      · rw [if_neg hc]
    split
    · simp
    · split
      · simp
      · have hb1 : RInv S { b with read_count := b.read_count + t1.length } :=
          RInv_advance S b t1.length h ht1le
        split
        · simp
        · simp
        · rename_i b2 s2 hfd
          obtain ⟨j1, j2, j3, j4, m, k1, k2, k3, k4, k5, k6, k7⟩ :=
            feed_progress S _ s b2 s2 hb1 hfd
          split
          · rename_i hrec
            exact absurd hrec (ih _ b2 s2 j1 (by omega))
          · simp

/-- C7: `read_until_limit` appends at most `limit` bytes to the collector and
its `Ok` value always equals the number of bytes appended (hence never exceeds
`limit`, and equals `limit` exactly when `limit` bytes were appended); every
byte obtained from the stream but not appended stays resident in the internal
buffer (conservation). With fuel beyond the bytes the source still serves, the
call always completes. -/
theorem C7_read_until_limit_cap (S fuel : Nat) (b : UnownedReadBuffer)
    (s : RStream) (byte limit : Nat) (h : RInv S b) :
    (∀ res b' s' app,
      read_until_limit fuel b s byte limit = some (res, b', s', app) →
      app.length ≤ limit ∧ (∀ n, res = .ok n → n = app.length) ∧
      app ++ resident b' ++ s'.data = resident b ++ s.data) ∧
    (s.data.length < fuel → read_until_limit fuel b s byte limit ≠ none) := by
  constructor
  · intro res b' s' app hr
    unfold read_until_limit at hr
    by_cases hl0 : limit = 0
    · rw [if_pos hl0] at hr
      simp only [Option.some.injEq, Prod.mk.injEq] at hr
      obtain ⟨h1, h2, h3, h4⟩ := hr
      subst h1; subst h2; subst h3; subst h4
      refine ⟨by simp, ?_, by simp⟩
      intro n hn
      simp only [Except.ok.injEq] at hn
      simp [← hn]
    · rw [if_neg hl0] at hr
      by_cases hav : available b = 0
      · rw [if_pos hav] at hr
        split at hr
        · rename_i e2 b2 s2 hfd
          simp only [Option.some.injEq, Prod.mk.injEq] at hr
          obtain ⟨h1, h2, h3, h4⟩ := hr
          subst h1; subst h2; subst h3; subst h4
          obtain ⟨j1, j2, j3, j4, j5, j6, j7, j8, j9⟩ :=
            feed_error S b s e2 b2 s2 h hfd
          refine ⟨by simp, ?_, by simp [j2, j5]⟩
          intro n hn; cases hn
        · rename_i b2 s2 hfd
          simp only [Option.some.injEq, Prod.mk.injEq] at hr
          obtain ⟨h1, h2, h3, h4⟩ := hr
          subst h1; subst h2; subst h3; subst h4
          obtain ⟨j1, j2, j3, j4, j5, j6, j7, j8, j9⟩ :=
            feed_eof S b s b2 s2 h hfd
          refine ⟨by simp, ?_, by simp [j2, j5]⟩
          intro n hn
          simp only [Except.ok.injEq] at hn
          simp [← hn]
        · rename_i b2 s2 hfd
          obtain ⟨j1, j2, j3, j4, m, k1, k2, k3, k4, k5, k6, k7⟩ :=
            feed_progress S b s b2 s2 h hfd
          obtain ⟨w1, w2, w3, w4⟩ := readUntilLimitLoop_spec S byte limit fuel
            0 b2 s2 res b' s' app j1 (by omega) hr
          refine ⟨by omega, ?_, ?_⟩
          · intro n hn
            have := w3 n hn
            omega
          · rw [w4, k4, k5, List.append_assoc, List.take_append_drop]
      · rw [if_neg hav] at hr
        obtain ⟨w1, w2, w3, w4⟩ := readUntilLimitLoop_spec S byte limit fuel
          0 b s res b' s' app h (by omega) hr
        refine ⟨by omega, ?_, w4⟩
        intro n hn
        have := w3 n hn
        omega
  · intro hfuel
    unfold read_until_limit
    by_cases hl0 : limit = 0
    · rw [if_pos hl0]; simp
    · rw [if_neg hl0]
      by_cases hav : available b = 0
      · rw [if_pos hav]
        split
        · simp
        · simp
        · rename_i b2 s2 hfd
          obtain ⟨j1, j2, j3, j4, m, k1, k2, k3, k4, k5, k6, k7⟩ :=
            feed_progress S b s b2 s2 h hfd
          exact readUntilLimitLoop_total S byte limit fuel 0 b2 s2 j1
            (by omega)
      · rw [if_neg hav]
        exact readUntilLimitLoop_total S byte limit fuel 0 b s h (by omega)

/-- Witness for C7 at the concrete run of the §8 example's first call. -/
theorem C7_read_until_limit_cap_witness :
    ([10, 11] : List Nat).length ≤ 16 ∧
    (∀ n, (Except.ok 2 : Except IOErr Nat) = Except.ok n →
      n = ([10, 11] : List Nat).length) ∧
    [10, 11] ++
        resident ⟨2, 7, writeAt (freshRead 16).buffer 0
          [10, 11, 12, 13, 11, 14, 15]⟩ ++ ([] : List Nat) =
      resident (freshRead 16) ++ [10, 11, 12, 13, 11, 14, 15] :=
  (C7_read_until_limit_cap 16 8 (freshRead 16)
    ⟨[10, 11, 12, 13, 11, 14, 15], fun _ => some 16, 0⟩ 11 16 (by decide)).1
    (.ok 2)
    ⟨2, 7, writeAt (freshRead 16).buffer 0 [10, 11, 12, 13, 11, 14, 15]⟩
    ⟨[], fun _ => some 16, 1⟩ [10, 11] rfl

/-- C6: on a fresh buffer over the source `[0xA,0xB,0xC,0xD,0xB,0xE,0xF]`,
three successive `read_until_limit` calls with delimiter `0xB` and limit 16
return `Ok(2)`, `Ok(3)`, `Ok(2)` and append `[0xA,0xB]`, `[0xC,0xD,0xB]`,
`[0xE,0xF]`, concatenating to the original sequence. -/
theorem C6_delimiter_limit_example :
    ∃ b1 s1 b2 s2 b3 s3,
      read_until_limit 8 (freshRead 16)
        ⟨[10, 11, 12, 13, 11, 14, 15], fun _ => some 16, 0⟩ 11 16 =
        some (.ok 2, b1, s1, [10, 11]) ∧
      read_until_limit 8 b1 s1 11 16 = some (.ok 3, b2, s2, [12, 13, 11]) ∧
      read_until_limit 8 b2 s2 11 16 = some (.ok 2, b3, s3, [14, 15]) ∧
      [10, 11] ++ [12, 13, 11] ++ [14, 15] = [10, 11, 12, 13, 11, 14, 15] :=
  ⟨_, _, _, _, _, _, rfl, rfl, rfl, rfl⟩

/-! ### Write side: `push`, `flush`, `write`, `write_all` (claims C5, C10) -/

theorem wresident_length (S : Nat) (b : UnownedWriteBuffer) (h : WInv S b) :
    (wresident b).length = b.fill_count := by
  obtain ⟨h1, h2⟩ := h
  rw [wresident, List.length_take]
  omega

theorem streamWrite_ok (s : WStream) (d : List Nat) (cnt : Nat) (s' : WStream)
    (h : streamWrite s d = (.ok cnt, s')) :
    ∃ k, s.oracle s.calls = some k ∧ cnt = min k d.length ∧
      s' = { sent := s.sent ++ d.take cnt, oracle := s.oracle,
             calls := s.calls + 1 } := by
  unfold streamWrite at h
  cases ho : s.oracle s.calls with
  | none => rw [ho] at h; simp_all
  | some k =>
    rw [ho] at h
    simp only [Prod.mk.injEq, Except.ok.injEq] at h
    obtain ⟨h1, h2⟩ := h
    subst h1; subst h2
    exact ⟨k, rfl, rfl, rfl⟩

theorem streamWrite_error (s : WStream) (d : List Nat) (e : IOErr)
    (s' : WStream) (h : streamWrite s d = (.error e, s')) :
    s.oracle s.calls = none ∧ e = .streamErr s.calls ∧
    s' = { s with calls := s.calls + 1 } := by
  unfold streamWrite at h
  cases ho : s.oracle s.calls with
  | none =>
    rw [ho] at h
    simp only [Prod.mk.injEq, Except.error.injEq] at h
    obtain ⟨h1, h2⟩ := h
    subst h1; subst h2
    exact ⟨rfl, rfl, rfl⟩
  | some k => rw [ho] at h; simp_all

theorem pushLoop_error (S : Nat) (b : UnownedWriteBuffer) :
    ∀ fuel count s e b' s', WInv S b → count ≤ b.fill_count →
    pushLoop fuel b s count = some (.error e, b', s') →
    ∃ m, count ≤ m ∧ m < b.fill_count ∧
      s'.sent = s.sent ++ ((wresident b).drop count).take (m - count) ∧
      s'.oracle = s.oracle ∧
      b'.fill_count = b.fill_count - m ∧
      wresident b' = (wresident b).drop m ∧
      WInv S b' ∧
      (m = 0 → b' = b) ∧
      (∃ c, s.calls ≤ c ∧ s.oracle c = none ∧ e = .streamErr c) := by
  intro fuel
  induction fuel with
  | zero => intro count s e b' s' _ _ hr; simp [pushLoop] at hr
  | succ fuel ih =>
    intro count s e b' s' h hcnt hr
    have hwlen : (wresident b).length = b.fill_count := wresident_length S b h
    simp only [pushLoop] at hr
    split at hr
    · rename_i hlt
      split at hr
      · -- the sink accepted cnt bytes; recurse
        rename_i cnt s1 hsw
        obtain ⟨k, hk, hcnt1, hs1⟩ := streamWrite_ok s _ cnt s1 hsw
        have hdlen : ((b.buffer.take b.fill_count).drop count).length =
            b.fill_count - count := by
          rw [List.length_drop, ← wresident, hwlen]
        obtain ⟨m, w1, w2, w3, w4, w5, w6, w7, w8, c, hc1, hc2, hc3⟩ :=
          ih (count + cnt) s1 e b' s' h (by omega) hr
        refine ⟨m, by omega, w2, ?_, ?_, w5, w6, w7, ?_, c, ?_, ?_, hc3⟩
        · rw [w3, hs1]
          show s.sent ++ ((wresident b).drop count).take cnt ++
            ((wresident b).drop (count + cnt)).take (m - (count + cnt)) =
            s.sent ++ ((wresident b).drop count).take (m - count)
          rw [List.append_assoc]
          congr 1
          have hdd : (wresident b).drop (count + cnt) =
              ((wresident b).drop count).drop cnt := by
            rw [List.drop_drop]
          rw [hdd, ← List.take_add]
          congr 1
          omega
        · rw [w4, hs1]
        · intro hm0
          exact w8 (by omega)
        · rw [hs1] at hc1
          simp at hc1
          omega
        · rw [hs1] at hc2
          exact hc2
      · -- the sink errored
        rename_i e2 s1 hsw
        obtain ⟨ho, he, hs1⟩ := streamWrite_error s _ e2 s1 hsw
        split at hr
        · rename_i hc0
          simp only [Option.some.injEq, Prod.mk.injEq, Except.error.injEq]
            at hr
          obtain ⟨h1, h2, h3⟩ := hr
          subst h2; subst h3
          refine ⟨count, Nat.le_refl _, by omega, by simp [hs1], by rw [hs1],
            by omega, by rw [hc0]; simp, h, fun _ => rfl,
            s.calls, Nat.le_refl _, ho, by rw [← h1]; exact he⟩
        · rename_i hc0
          simp only [Option.some.injEq, Prod.mk.injEq, Except.error.injEq]
            at hr
          obtain ⟨h1, h2, h3⟩ := hr
          subst h2; subst h3
          obtain ⟨hh1, hh2⟩ := h
          refine ⟨count, Nat.le_refl _, by omega, by simp [hs1], by rw [hs1],
            rfl, ?_, ?_, fun hm0 => absurd hm0 hc0,
            s.calls, Nat.le_refl _, ho, by rw [← h1]; exact he⟩
          · show (copyToFront b.buffer count b.fill_count).take
              (b.fill_count - count) = (wresident b).drop count
            rw [copyToFront_front b.buffer count b.fill_count (by omega)
              (by omega), wresident]
          · refine ⟨?_, ?_⟩
            · show b.fill_count - count ≤ S
              omega
            show (copyToFront b.buffer count b.fill_count).length = S
            rw [copyToFront_length b.buffer count b.fill_count (by omega)]
            exact hh2
    · simp at hr

theorem pushLoop_good (S : Nat) (b : UnownedWriteBuffer) :
    ∀ fuel count s, WInv S b → count ≤ b.fill_count → goodOracle s.oracle →
    b.fill_count - count < fuel →
    ∃ s', pushLoop fuel b s count =
        some (.ok (), { b with fill_count := 0 }, s') ∧
      s'.sent = s.sent ++ (wresident b).drop count ∧
      s'.oracle = s.oracle := by
  intro fuel
  induction fuel with
  | zero => intro count s _ _ _ hlt; omega
  | succ fuel ih =>
    intro count s h hcnt hg hfuel
    have hwlen : (wresident b).length = b.fill_count := wresident_length S b h
    by_cases hlt : count < b.fill_count
    · simp only [pushLoop]
      rw [if_pos hlt]
      obtain ⟨k, hk, hk1⟩ := hg s.calls
      have hsw : streamWrite s ((b.buffer.take b.fill_count).drop count) =
          (.ok (min k ((b.buffer.take b.fill_count).drop count).length),
           { sent := s.sent ++ ((b.buffer.take b.fill_count).drop count).take
               (min k ((b.buffer.take b.fill_count).drop count).length),
             oracle := s.oracle, calls := s.calls + 1 }) := by
        unfold streamWrite
        rw [hk]
      rw [hsw]
      have hdlen : ((b.buffer.take b.fill_count).drop count).length =
          b.fill_count - count := by
        rw [List.length_drop, ← wresident, hwlen]
      obtain ⟨s', p1, p2, p3⟩ := ih
        (count + min k ((b.buffer.take b.fill_count).drop count).length)
        { sent := s.sent ++ ((b.buffer.take b.fill_count).drop count).take
            (min k ((b.buffer.take b.fill_count).drop count).length),
          oracle := s.oracle, calls := s.calls + 1 }
        h (by omega) hg (by rw [hdlen]; omega)
      refine ⟨s', p1, ?_, p3⟩
      rw [p2]
      show s.sent ++ ((wresident b).drop count).take
          (min k ((wresident b).drop count).length) ++
          (wresident b).drop (count + min k ((wresident b).drop count).length)
        = s.sent ++ (wresident b).drop count
      rw [List.append_assoc]
      congr 1
      have hdd : (wresident b).drop
          (count + min k ((wresident b).drop count).length) =
          ((wresident b).drop count).drop
            (min k ((wresident b).drop count).length) := by
        rw [List.drop_drop]
      rw [hdd]
      exact List.take_append_drop _ ((wresident b).drop count)
    · simp only [pushLoop]
      rw [if_neg hlt]
      refine ⟨s, rfl, ?_, rfl⟩
      have hce : count = b.fill_count := by omega
      rw [hce, ← hwlen, List.drop_length]
      simp

theorem pushLoop_zero (b : UnownedWriteBuffer) :
    ∀ fuel count s, zeroFrom s.oracle s.calls → count < b.fill_count →
    pushLoop fuel b s count = none := by
  intro fuel
  induction fuel with
  | zero => intro count s _ _; rfl
  | succ fuel ih =>
    intro count s hz hlt
    simp only [pushLoop]
    rw [if_pos hlt]
    have hk := hz s.calls (Nat.le_refl _)
    have hsw : streamWrite s ((b.buffer.take b.fill_count).drop count) =
        (.ok 0,
         { sent := s.sent ++ ((b.buffer.take b.fill_count).drop count).take 0,
           oracle := s.oracle, calls := s.calls + 1 }) := by
      unfold streamWrite
      rw [hk]
      simp
    rw [hsw]
    show pushLoop fuel b
      { sent := s.sent ++ ((b.buffer.take b.fill_count).drop count).take 0,
        oracle := s.oracle, calls := s.calls + 1 } (count + 0) = none
    exact ih (count + 0)
      { sent := s.sent ++ ((b.buffer.take b.fill_count).drop count).take 0,
        oracle := s.oracle, calls := s.calls + 1 }
      (fun i hi => hz i (le_trans (Nat.le_succ s.calls) hi)) (by omega)

theorem pushLoop_goodW_total (S : Nat) (b : UnownedWriteBuffer) :
    ∀ fuel count s, WInv S b → count ≤ b.fill_count → goodWOracle s.oracle →
    b.fill_count - count < fuel →
    pushLoop fuel b s count ≠ none := by
  intro fuel
  induction fuel with
  | zero => intro count s _ _ _ hlt; omega
  | succ fuel ih =>
    intro count s h hcnt hg hfuel
    have hwlen : (wresident b).length = b.fill_count := wresident_length S b h
    by_cases hlt : count < b.fill_count
    · simp only [pushLoop]
      rw [if_pos hlt]
      rcases hg s.calls with hk | ⟨k, hk, hk1⟩
      · have hsw : streamWrite s ((b.buffer.take b.fill_count).drop count) =
            (.error (.streamErr s.calls), { s with calls := s.calls + 1 }) := by
          unfold streamWrite
          rw [hk]
        rw [hsw]
        show (if count = 0 then
            some ((Except.error (IOErr.streamErr s.calls) :
                Except IOErr Unit), b, { s with calls := s.calls + 1 })
          else
            some (Except.error (IOErr.streamErr s.calls),
              { b with buffer := copyToFront b.buffer count b.fill_count,
                       fill_count := b.fill_count - count },
              { s with calls := s.calls + 1 })) ≠ none
        by_cases hc0 : count = 0
        · rw [if_pos hc0]; simp
        · rw [if_neg hc0]; simp
      · have hsw : streamWrite s ((b.buffer.take b.fill_count).drop count) =
            (.ok (min k ((b.buffer.take b.fill_count).drop count).length),
             { sent := s.sent ++ ((b.buffer.take b.fill_count).drop count).take
                 (min k ((b.buffer.take b.fill_count).drop count).length),
               oracle := s.oracle, calls := s.calls + 1 }) := by
          unfold streamWrite
          rw [hk]
        rw [hsw]
        have hdlen : ((b.buffer.take b.fill_count).drop count).length =
            b.fill_count - count := by
          rw [List.length_drop, ← wresident, hwlen]
        exact ih _ _ h (by omega) hg (by rw [hdlen]; omega)
    · simp only [pushLoop]
      rw [if_neg hlt]
      simp

theorem push_good (S fuel : Nat) (b : UnownedWriteBuffer) (s : WStream)
    (h : WInv S b) (hg : goodOracle s.oracle) (hfuel : b.fill_count < fuel) :
    ∃ s', push fuel b s = some (.ok (), { b with fill_count := 0 }, s') ∧
      s'.sent = s.sent ++ wresident b ∧ s'.oracle = s.oracle := by
  unfold push
  by_cases h0 : b.fill_count = 0
  · rw [if_pos h0]
    refine ⟨s, ?_, ?_, rfl⟩
    · cases b with
      | mk fc buf =>
        simp only at h0
        subst h0
        rfl
    · have : wresident b = [] := by
        rw [wresident, h0]
        simp
      rw [this]
      simp
  · rw [if_neg h0]
    obtain ⟨s', p1, p2, p3⟩ := pushLoop_good S b fuel 0 s h (Nat.zero_le _)
      hg (by omega)
    refine ⟨s', p1, ?_, p3⟩
    rw [p2]
    simp

/-! ### Claim C5 -/

/-- C5: when `push` surfaces a sink error after `m` bytes of the pending run
were already sent, the unsent remainder has been moved to the front of the
buffer in order and `fill_count` reduced by exactly `m`; with zero bytes sent
the buffer is completely untouched. The sink's error is returned unchanged
(it is the error the sink produced at one of this push's write calls), and a
subsequent `flush` to a working sink retransmits exactly the unsent
remainder. -/
theorem C5_push_partial_error_recovery (S fuel : Nat)
    (b : UnownedWriteBuffer) (s : WStream) (e : IOErr)
    (b' : UnownedWriteBuffer) (s' : WStream) (h : WInv S b)
    (hr : push fuel b s = some (.error e, b', s')) :
    ∃ m, m < b.fill_count ∧
      s'.sent = s.sent ++ (wresident b).take m ∧
      b'.fill_count = b.fill_count - m ∧
      wresident b' = (wresident b).drop m ∧
      WInv S b' ∧
      (m = 0 → b' = b) ∧
      (∃ c, s.calls ≤ c ∧ s.oracle c = none ∧ e = .streamErr c) ∧
      (∀ s2 : WStream, goodOracle s2.oracle →
        ∃ s2', flush (b'.fill_count + 1) b' s2 =
            some (.ok (), { b' with fill_count := 0 }, s2') ∧
          s2'.sent = s2.sent ++ wresident b') := by
  unfold push at hr
  by_cases h0 : b.fill_count = 0
  · rw [if_pos h0] at hr
    simp at hr
  · rw [if_neg h0] at hr
    obtain ⟨m, w1, w2, w3, w4, w5, w6, w7, w8, hc⟩ :=
      pushLoop_error S b fuel 0 s e b' s' h (Nat.zero_le _) hr
    refine ⟨m, w2, by simpa using w3, w5, w6, w7, w8, hc, ?_⟩
    intro s2 hg2
    obtain ⟨s2', p1, p2, p3⟩ := push_good S (b'.fill_count + 1) b' s2 w7 hg2
      (by omega)
    have hsf : streamFlush s2' = (.ok (), { s2' with calls := s2'.calls + 1 })
        := by
      unfold streamFlush
      obtain ⟨k, hk, -⟩ := hg2 s2'.calls
      rw [p3, hk]
    refine ⟨{ s2' with calls := s2'.calls + 1 }, ?_, by simp [p2]⟩
    unfold flush
    rw [p1]
    show (match streamFlush s2' with
      | (Except.error e2, s3) => some (Except.error e2,
          ({ fill_count := 0, buffer := b'.buffer } : UnownedWriteBuffer), s3)
      | (Except.ok _, s3) => some (Except.ok (),
          ({ fill_count := 0, buffer := b'.buffer } : UnownedWriteBuffer),
          s3)) =
      some (Except.ok (), { b' with fill_count := 0 },
        { s2' with calls := s2'.calls + 1 })
    rw [hsf]

/-- Witness for C5: a sink that accepts one byte and then errors, pushed a
2-byte buffer; the byte `5` was sent, the byte `6` was compacted to the
front. -/
theorem C5_push_partial_error_recovery_witness :
    ∃ m, m < 2 ∧
      (⟨[5], fun i => if i = 0 then some 1 else none, 2⟩ : WStream).sent =
        (⟨[], fun i => if i = 0 then some 1 else none, 0⟩ : WStream).sent ++
          (wresident ⟨2, 5 :: 6 :: List.replicate 14 0⟩).take m := by
  obtain ⟨m, w1, w2, -⟩ := C5_push_partial_error_recovery 16 8
    ⟨2, 5 :: 6 :: List.replicate 14 0⟩
    ⟨[], fun i => if i = 0 then some 1 else none, 0⟩
    (.streamErr 1)
    ⟨1, copyToFront (5 :: 6 :: List.replicate 14 0) 1 2⟩
    ⟨[5], fun i => if i = 0 then some 1 else none, 2⟩
    (by decide) rfl
  exact ⟨m, w1, w2⟩

/-! ### Claim C10 -/

/-- C10 counterexample: the claim as stated says a sink whose write reports
`Ok(0)` makes `write` loop forever whenever the buffer is non-empty; but
`write` with a non-empty, non-full buffer never calls the sink and terminates
even with zero fuel. -/
theorem C10_counterexample :
    0 < (⟨1, 5 :: List.replicate 15 0⟩ : UnownedWriteBuffer).fill_count ∧
    (∀ i, ((fun _ => some 0 : Nat → Option Nat)) i = some 0) ∧
    (write 0 ⟨1, 5 :: List.replicate 15 0⟩ ⟨[], fun _ => some 0, 0⟩
      [9]).isSome = true := by
  refine ⟨by decide, fun _ => rfl, rfl⟩

/-- C10 (amended): `push` terminates for every sink that on each call either
errors or accepts at least one byte, and empties the buffer when no error
occurs; a sink forever reporting `Ok(0)` makes `push` and `flush` loop
forever whenever the buffer is non-empty, and makes `write` and `write_all`
loop forever when the internal buffer is full on entry (so that they invoke
`push`); `write` with a non-full buffer terminates without touching the
sink. -/
theorem C10_push_termination_zero_sink (S : Nat) (b : UnownedWriteBuffer)
    (s : WStream) (h : WInv S b) :
    (goodWOracle s.oracle → ∀ fuel, b.fill_count < fuel →
      push fuel b s ≠ none) ∧
    (goodOracle s.oracle → ∀ fuel, b.fill_count < fuel →
      ∃ s', push fuel b s = some (.ok (), { b with fill_count := 0 }, s') ∧
        s'.sent = s.sent ++ wresident b) ∧
    (zeroFrom s.oracle s.calls → 1 ≤ b.fill_count →
      (∀ fuel, push fuel b s = none) ∧
      (∀ fuel, flush fuel b s = none) ∧
      (wavailable b = 0 → ∀ pfuel d, d ≠ [] → write pfuel b s d = none) ∧
      (wavailable b = 0 → ∀ pfuel fuel d, d ≠ [] →
        write_all pfuel fuel b s d = none)) := by
  refine ⟨?_, ?_, ?_⟩
  · intro hg fuel hfuel
    unfold push
    by_cases h0 : b.fill_count = 0
    · rw [if_pos h0]; simp
    · rw [if_neg h0]
      exact pushLoop_goodW_total S b fuel 0 s h (Nat.zero_le _) hg (by omega)
  · intro hg fuel hfuel
    obtain ⟨s', p1, p2, p3⟩ := push_good S fuel b s h hg hfuel
    exact ⟨s', p1, p2⟩
  · intro hz h1
    have hpz : ∀ fuel, push fuel b s = none := by
      intro fuel
      unfold push
      rw [if_neg (by omega)]
      exact pushLoop_zero b fuel 0 s hz (by omega)
    refine ⟨hpz, ?_, ?_, ?_⟩
    · intro fuel
      unfold flush
      rw [hpz fuel]
    · intro hfull pfuel d hd
      unfold write
      rw [if_neg hd, if_pos hfull, hpz pfuel]
    · intro hfull pfuel fuel d hd
      unfold write_all
      rw [if_neg hd]
      cases fuel with
      | zero => rfl
      | succ f =>
        simp only [writeAllLoop]
        rw [if_pos hfull, hpz pfuel]

/-- Witness for the amended C10 at a concrete zero-sink. -/
theorem C10_push_termination_zero_sink_witness :
    push 5 ⟨1, 5 :: List.replicate 15 0⟩ ⟨[], fun _ => some 0, 0⟩ = none := by
  have h := (C10_push_termination_zero_sink 16 ⟨1, 5 :: List.replicate 15 0⟩
    ⟨[], fun _ => some 0, 0⟩ (by decide)).2.2 (fun i _ => rfl) (by decide)
  exact h.1 5

/-! ### UTF-8 helper lemmas -/

theorem utf8_cont_assert_error (c : Nat) (e : IOErr)
    (h : utf8_cont_assert c = .error e) : e = .invalidData := by
  unfold utf8_cont_assert at h
  split at h
  · cases h
  · simp only [Except.error.injEq] at h
    exact h.symm

theorem next_utf8_error (l : List Nat) (i : Nat) (e : IOErr)
    (h : next_utf8 l i = .error e) : e = .invalidData := by
  unfold next_utf8 utf8_cont_assert at h
  repeat' split at h
  all_goals try (cases h)
  all_goals try (rename_i hq; split at hq)
  all_goals try (cases hq)
  all_goals rfl

theorem next_utf8_ok (l : List Nat) (i k : Nat)
    (h : next_utf8 l i = .ok k) : 1 ≤ k ∧ k ≤ 4 := by
  unfold next_utf8 utf8_cont_assert at h
  repeat' split at h
  all_goals try simp only [Except.ok.injEq, reduceCtorEq] at h
  all_goals omega

theorem read_utf8_ok (l x : List Nat) (h : read_utf8 l = .ok x) : x = l := by
  unfold read_utf8 at h
  split at h
  · simp only [Except.ok.injEq] at h
    exact h.symm
  · cases h

theorem read_utf8_error (l : List Nat) (e : IOErr)
    (h : read_utf8 l = .error e) : e = .invalidData := by
  unfold read_utf8 at h
  split at h
  · cases h
  · simp only [Except.error.injEq] at h
    exact h.symm

theorem scanMid_error :
    ∀ fuel (l : List Nat) (i : Nat) (e : IOErr),
    scanMid fuel l i = some (.error e) → e = .invalidData := by
  intro fuel
  induction fuel with
  | zero => intro l i e hr; cases hr
  | succ fuel ih =>
    intro l i e hr
    simp only [scanMid] at hr
    split at hr
    · split at hr
      · rename_i e2 hnx
        simp only [Option.some.injEq, Except.error.injEq] at hr
        rw [← hr]
        exact next_utf8_error l i e2 hnx
      · rename_i k hnx
        exact ih l (i + k) e hr
    · simp at hr

theorem scanMid_le :
    ∀ fuel (l : List Nat) (i j : Nat),
    scanMid fuel l i = some (.ok j) → j ≤ l.length ∨ j = i := by
  intro fuel
  induction fuel with
  | zero => intro l i j hr; cases hr
  | succ fuel ih =>
    intro l i j hr
    simp only [scanMid] at hr
    split at hr
    · rename_i hlt
      split at hr
      · cases hr
      · rename_i k hnx
        obtain ⟨hk1, hk4⟩ := next_utf8_ok l i k hnx
        rcases ih l (i + k) j hr with h1 | h1
        · exact Or.inl h1
        · left
          omega
    · simp only [Option.some.injEq, Except.ok.injEq] at hr
      exact Or.inr hr.symm

theorem scanFull_error :
    ∀ fuel (l : List Nat) (i : Nat) (e : IOErr),
    scanFull fuel l i = some (.error e) → e = .invalidData := by
  intro fuel
  induction fuel with
  | zero => intro l i e hr; cases hr
  | succ fuel ih =>
    intro l i e hr
    simp only [scanFull] at hr
    split at hr
    · split at hr
      · rename_i e2 hnx
        simp only [Option.some.injEq, Except.error.injEq] at hr
        rw [← hr]
        exact next_utf8_error l i e2 hnx
      · rename_i k hnx
        exact ih l (i + k) e hr
    · simp at hr

theorem finalValidate_error :
    ∀ fuel (l : List Nat) (i : Nat) (e : IOErr),
    finalValidate fuel l i = some (.error e) → e = .invalidData := by
  intro fuel
  induction fuel with
  | zero => intro l i e hr; cases hr
  | succ fuel ih =>
    intro l i e hr
    simp only [finalValidate] at hr
    split at hr
    · simp at hr
    · split at hr
      · simp only [Option.some.injEq, Except.error.injEq] at hr
        exact hr.symm
      · split at hr
        · exact ih l (i + 1) e hr
        · split at hr
          · rename_i hca
            simp only [Option.some.injEq, Except.error.injEq] at hr
            rw [← hr]
            exact utf8_cont_assert_error _ _ hca
          · exact ih l (i + 2) e hr
        · split at hr
          · rename_i hca
            simp only [Option.some.injEq, Except.error.injEq] at hr
            rw [← hr]
            exact utf8_cont_assert_error _ _ hca
          · split at hr
            · rename_i hca
              simp only [Option.some.injEq, Except.error.injEq] at hr
              rw [← hr]
              exact utf8_cont_assert_error _ _ hca
            · exact ih l (i + 3) e hr
        · split at hr
          · rename_i hca
            simp only [Option.some.injEq, Except.error.injEq] at hr
            rw [← hr]
            exact utf8_cont_assert_error _ _ hca
          · split at hr
            · rename_i hca
              simp only [Option.some.injEq, Except.error.injEq] at hr
              rw [← hr]
              exact utf8_cont_assert_error _ _ hca
            · split at hr
              · rename_i hca
                simp only [Option.some.injEq, Except.error.injEq] at hr
                rw [← hr]
                exact utf8_cont_assert_error _ _ hca
              · exact ih l (i + 4) e hr
        · cases hr

/-! ### `read_exact` -/

theorem feed_inv (S : Nat) (b : UnownedReadBuffer) (s : RStream)
    (r : Except IOErr Bool) (b' : UnownedReadBuffer) (s' : RStream)
    (h : RInv S b) (hf : feed b s = (r, b', s')) :
    RInv S b' ∧ s'.oracle = s.oracle := by
  match r with
  | .error e =>
    obtain ⟨j1, _, _, _, _, j6, _⟩ := feed_error S b s e b' s' h hf
    exact ⟨j1, j6⟩
  | .ok false =>
    obtain ⟨j1, _, _, _, _, j6, _⟩ := feed_eof S b s b' s' h hf
    exact ⟨j1, j6⟩
  | .ok true =>
    obtain ⟨j1, _, j3, _⟩ := feed_progress S b s b' s' h hf
    exact ⟨j1, j3⟩

theorem readExactLoop_spec (S : Nat) :
    ∀ fuel (b : UnownedReadBuffer) (s : RStream) (n : Nat)
      (r : Except IOErr Unit) (b' : UnownedReadBuffer) (s' : RStream)
      (out : List Nat), RInv S b →
    readExactLoop fuel b s n = some (r, b', s', out) →
    RInv S b' ∧ s'.oracle = s.oracle ∧
    out ++ resident b' ++ s'.data = resident b ++ s.data ∧
    (r = .ok () → out.length = n) ∧
    (∀ e, r = .error e → out.length < n ∧
      (e = .unexpectedEof ∨ ∃ c, e = .streamErr c)) := by
  intro fuel
  induction fuel with
  | zero => intro b s n r b' s' out h hr; cases hr
  | succ fuel ih =>
    intro b s n r b' s' out h hr
    have hlen := resident_length S b h
    simp only [readExactLoop] at hr
    split at hr
    · rename_i hn
      simp only [Option.some.injEq, Prod.mk.injEq] at hr
      obtain ⟨h1, h2, h3, h4⟩ := hr
      subst h1; subst h2; subst h3; subst h4
      refine ⟨RInv_advance S b n h hn, rfl, ?_, ?_, ?_⟩
      · rw [resident_advance, List.take_append_drop]
      · intro _; rw [List.length_take]; omega
      · intro e he; cases he
    · rename_i hn
      have hb0 : RInv S { b with read_count := 0, fill_count := 0 } :=
        RInv_reset S b h
      split at hr
      · rename_i e2 b2 s2 hfd
        obtain ⟨j1, j2, j3, j4, j5, j6, j7, j8, j9⟩ :=
          feed_error S _ s e2 b2 s2 hb0 hfd
        simp only [Option.some.injEq, Prod.mk.injEq] at hr
        obtain ⟨h1, h2, h3, h4⟩ := hr
        subst h1; subst h2; subst h3; subst h4
        refine ⟨j1, j6, ?_, ?_, ?_⟩
        · rw [j2, resident_reset, List.append_nil, j5]
        · intro hc; cases hc
        · intro e he
          simp only [Except.error.injEq] at he
          subst he
          exact ⟨by omega, Or.inr ⟨s.calls, j8⟩⟩
      · rename_i b2 s2 hfd
        obtain ⟨j1, j2, j3, j4, j5, j6, j7, -⟩ :=
          feed_eof S _ s b2 s2 hb0 hfd
        simp only [Option.some.injEq, Prod.mk.injEq] at hr
        obtain ⟨h1, h2, h3, h4⟩ := hr
        subst h1; subst h2; subst h3; subst h4
        refine ⟨j1, j6, ?_, ?_, ?_⟩
        · rw [j2, resident_reset, List.append_nil, j5]
        · intro hc; cases hc
        · intro e he
          simp only [Except.error.injEq] at he
          subst he
          exact ⟨by omega, Or.inl rfl⟩
      · rename_i b2 s2 hfd
        obtain ⟨j1, j2, j3, j4, m, k1, k2, k3, k4, k5, k6, k7⟩ :=
          feed_progress S _ s b2 s2 hb0 hfd
        split at hr
        · cases hr
        · rename_i r3 b3 s3 out2 hrec
          simp only [Option.some.injEq, Prod.mk.injEq] at hr
          obtain ⟨h1, h2, h3, h4⟩ := hr
          subst h1; subst h2; subst h3; subst h4
          obtain ⟨w1, w2, w3, w4, w5⟩ := ih b2 s2 (n - available b) r3 b3 s3 out2 j1 hrec
          have hc : out2 ++ resident b3 ++ s3.data = s.data := by
            rw [w3, k4, resident_reset, List.nil_append, k5,
              List.take_append_drop]
          refine ⟨w1, w2.trans j3, ?_, ?_, ?_⟩
          · simp only [List.append_assoc] at hc ⊢
            rw [hc]
          · intro hro
            have := w4 hro
            simp only [List.length_append, hlen, this]
            omega
          · intro e he
            obtain ⟨q1, q2⟩ := w5 e he
            refine ⟨?_, q2⟩
            simp only [List.length_append, hlen]
            omega

theorem read_exact_spec (S : Nat) (fuel n : Nat) (b : UnownedReadBuffer)
    (s : RStream) (r : Except IOErr Unit) (b' : UnownedReadBuffer)
    (s' : RStream) (out : List Nat) (h : RInv S b)
    (hr : read_exact fuel b s n = some (r, b', s', out)) :
    RInv S b' ∧ s'.oracle = s.oracle ∧
    out ++ resident b' ++ s'.data = resident b ++ s.data ∧
    (r = .ok () → out.length = n) ∧
    (∀ e, r = .error e → out.length < n ∧
      (e = .unexpectedEof ∨ ∃ c, e = .streamErr c)) := by
  unfold read_exact at hr
  split at hr
  · rename_i hn0
    simp only [Option.some.injEq, Prod.mk.injEq] at hr
    obtain ⟨h1, h2, h3, h4⟩ := hr
    subst h1; subst h2; subst h3; subst h4
    refine ⟨h, rfl, rfl, ?_, ?_⟩
    · intro _; simp [hn0]
    · intro e he; cases he
  · split at hr
    · rename_i hn0 hav
      split at hr
      · rename_i e2 b2 s2 hfd
        obtain ⟨j1, j2, j3, j4, j5, j6, j7, j8, j9⟩ :=
          feed_error S b s e2 b2 s2 h hfd
        simp only [Option.some.injEq, Prod.mk.injEq] at hr
        obtain ⟨h1, h2, h3, h4⟩ := hr
        subst h1; subst h2; subst h3; subst h4
        refine ⟨j1, j6, by rw [j2, j5]; simp, ?_, ?_⟩
        · intro hc; cases hc
        · intro e he
          simp only [Except.error.injEq] at he
          subst he
          exact ⟨by simp only [List.length_nil]; omega, Or.inr ⟨s.calls, j8⟩⟩
      · rename_i b2 s2 hfd
        obtain ⟨j1, j2, j3, j4, j5, j6, j7, -⟩ := feed_eof S b s b2 s2 h hfd
        simp only [Option.some.injEq, Prod.mk.injEq] at hr
        obtain ⟨h1, h2, h3, h4⟩ := hr
        subst h1; subst h2; subst h3; subst h4
        refine ⟨j1, j6, by rw [j2, j5]; simp, ?_, ?_⟩
        · intro hc; cases hc
        · intro e he
          simp only [Except.error.injEq] at he
          subst he
          exact ⟨by simp only [List.length_nil]; omega, Or.inl rfl⟩
      · rename_i b2 s2 hfd
        obtain ⟨j1, j2, j3, j4, m, k1, k2, k3, k4, k5, k6, k7⟩ :=
          feed_progress S b s b2 s2 h hfd
        obtain ⟨w1, w2, w3, w4, w5⟩ :=
          readExactLoop_spec S fuel b2 s2 n r b' s' out j1 hr
        refine ⟨w1, w2.trans j3, ?_, w4, w5⟩
        rw [w3, k4, k5]
        simp only [List.append_assoc, List.take_append_drop]
    · rename_i hn0 hav
      exact readExactLoop_spec S fuel b s n r b' s' out h hr

/-! ### Error shapes and invariant preservation of the remaining raw reads -/

theorem readUntilLoop_err (S byte : Nat) :
    ∀ fuel count (b : UnownedReadBuffer) (s : RStream) res b' s' app,
    RInv S b →
    readUntilLoop fuel b s byte count = some (res, b', s', app) →
    RInv S b' ∧ s'.oracle = s.oracle ∧
    (∀ e, res = .error e → ∃ c, e = .streamErr c) := by
  intro fuel
  induction fuel with
  | zero => intro count b s res b' s' app _ hr; cases hr
  | succ fuel ih =>
    intro count b s res b' s' app h hr
    simp only [readUntilLoop] at hr
    split at hr
    · rename_i i hfb
      simp only [Option.some.injEq, Prod.mk.injEq] at hr
      obtain ⟨h1, h2, h3, h4⟩ := hr
      subst h1; subst h2; subst h3; subst h4
      have hfi := findByte_lt byte (resident b) i hfb
      have hlen := resident_length S b h
      refine ⟨RInv_advance S b ((resident b).take (i + 1)).length h ?_, rfl, ?_⟩
      · rw [List.length_take]; omega
      · intro e he; cases he
    · have hb0 : RInv S { b with read_count := 0, fill_count := 0 } :=
        RInv_reset S b h
      split at hr
      · rename_i e2 b2 s2 hfd
        obtain ⟨j1, _, _, _, _, j6, _, j8, _⟩ := feed_error S _ s e2 b2 s2 hb0 hfd
        simp only [Option.some.injEq, Prod.mk.injEq] at hr
        obtain ⟨h1, h2, h3, h4⟩ := hr
        subst h1; subst h2; subst h3; subst h4
        refine ⟨j1, j6, ?_⟩
        intro e he
        simp only [Except.error.injEq] at he
        subst he
        exact ⟨s.calls, j8⟩
      · rename_i b2 s2 hfd
        obtain ⟨j1, _, _, _, _, j6, _⟩ := feed_eof S _ s b2 s2 hb0 hfd
        simp only [Option.some.injEq, Prod.mk.injEq] at hr
        obtain ⟨h1, h2, h3, h4⟩ := hr
        subst h1; subst h2; subst h3; subst h4
        refine ⟨j1, j6, ?_⟩
        intro e he; cases he
      · rename_i b2 s2 hfd
        obtain ⟨j1, _, j3, _⟩ := feed_progress S _ s b2 s2 hb0 hfd
        split at hr
        · cases hr
        · rename_i r3 b3 s3 out2 hrec
          simp only [Option.some.injEq, Prod.mk.injEq] at hr
          obtain ⟨h1, h2, h3, h4⟩ := hr
          subst h1; subst h2; subst h3; subst h4
          obtain ⟨w1, w2, w3⟩ := ih _ b2 s2 r3 b3 s3 out2 j1 hrec
          exact ⟨w1, w2.trans j3, w3⟩

theorem read_until_err (S : Nat) (fuel byte : Nat) (b : UnownedReadBuffer)
    (s : RStream) (res : Except IOErr Nat) (b' : UnownedReadBuffer)
    (s' : RStream) (app : List Nat) (h : RInv S b)
    (hr : read_until fuel b s byte = some (res, b', s', app)) :
    RInv S b' ∧ s'.oracle = s.oracle ∧
    (∀ e, res = .error e → ∃ c, e = .streamErr c) := by
  unfold read_until at hr
  split at hr
  · split at hr
    · rename_i e2 b2 s2 hfd
      obtain ⟨j1, _, _, _, _, j6, _, j8, _⟩ := feed_error S b s e2 b2 s2 h hfd
      simp only [Option.some.injEq, Prod.mk.injEq] at hr
      obtain ⟨h1, h2, h3, h4⟩ := hr
      subst h1; subst h2; subst h3; subst h4
      refine ⟨j1, j6, ?_⟩
      intro e he
      simp only [Except.error.injEq] at he
      subst he
      exact ⟨s.calls, j8⟩
    · rename_i b2 s2 hfd
      obtain ⟨j1, _, _, _, _, j6, _⟩ := feed_eof S b s b2 s2 h hfd
      simp only [Option.some.injEq, Prod.mk.injEq] at hr
      obtain ⟨h1, h2, h3, h4⟩ := hr
      subst h1; subst h2; subst h3; subst h4
      refine ⟨j1, j6, ?_⟩
      intro e he; cases he
    · rename_i b2 s2 hfd
      obtain ⟨j1, _, j3, _⟩ := feed_progress S b s b2 s2 h hfd
      obtain ⟨w1, w2, w3⟩ := readUntilLoop_err S byte fuel 0 b2 s2 res b' s' app j1 hr
      exact ⟨w1, w2.trans j3, w3⟩
  · exact readUntilLoop_err S byte fuel 0 b s res b' s' app h hr

theorem readUntilLimitLoop_err (S byte limit : Nat) :
    ∀ fuel count (b : UnownedReadBuffer) (s : RStream) res b' s' app,
    RInv S b →
    readUntilLimitLoop fuel b s byte limit count = some (res, b', s', app) →
    s'.oracle = s.oracle ∧ (∀ e, res = .error e → ∃ c, e = .streamErr c) := by
  intro fuel
  induction fuel with
  | zero => intro count b s res b' s' app _ hr; cases hr
  | succ fuel ih =>
    intro count b s res b' s' app h hr
    simp only [readUntilLimitLoop] at hr
    set t0 := resident b with ht0
    set t1 := if limit < count + t0.length then t0.take (limit - count) else t0
      with ht1
    have hlen : t0.length = available b := resident_length S b h
    have ht1l : t1.length ≤ available b := by
      rw [ht1]
      split
      · rw [List.length_take]; omega
      · omega
    have hb1 : RInv S { b with read_count := b.read_count + t1.length } :=
      RInv_advance S b _ h ht1l
    split at hr
    · rename_i i hfb
      simp only [Option.some.injEq, Prod.mk.injEq] at hr
      obtain ⟨h1, h2, h3, h4⟩ := hr
      subst h1; subst h2; subst h3; subst h4
      exact ⟨rfl, by intro e he; cases he⟩
    · rename_i hfb
      split at hr
      · simp only [Option.some.injEq, Prod.mk.injEq] at hr
        obtain ⟨h1, h2, h3, h4⟩ := hr
        subst h1; subst h2; subst h3; subst h4
        exact ⟨rfl, by intro e he; cases he⟩
      · split at hr
        · rename_i e2 b2 s2 hfd
          obtain ⟨j1, _, _, _, _, j6, _, j8, _⟩ :=
            feed_error S _ s e2 b2 s2 hb1 hfd
          simp only [Option.some.injEq, Prod.mk.injEq] at hr
          obtain ⟨h1, h2, h3, h4⟩ := hr
          subst h1; subst h2; subst h3; subst h4
          refine ⟨j6, ?_⟩
          intro e he
          simp only [Except.error.injEq] at he
          subst he
          exact ⟨s.calls, j8⟩
        · rename_i b2 s2 hfd
          obtain ⟨j1, _, _, _, _, j6, _⟩ := feed_eof S _ s b2 s2 hb1 hfd
          simp only [Option.some.injEq, Prod.mk.injEq] at hr
          obtain ⟨h1, h2, h3, h4⟩ := hr
          subst h1; subst h2; subst h3; subst h4
          exact ⟨j6, by intro e he; cases he⟩
        · rename_i b2 s2 hfd
          obtain ⟨j1, _, j3, _⟩ := feed_progress S _ s b2 s2 hb1 hfd
          split at hr
          · cases hr
          · rename_i r3 b3 s3 out2 hrec
            simp only [Option.some.injEq, Prod.mk.injEq] at hr
            obtain ⟨h1, h2, h3, h4⟩ := hr
            subst h1; subst h2; subst h3; subst h4
            obtain ⟨w2, w3⟩ := ih _ b2 s2 r3 b3 s3 out2 j1 hrec
            exact ⟨w2.trans j3, w3⟩

theorem read_until_limit_err (S : Nat) (fuel byte limit : Nat)
    (b : UnownedReadBuffer) (s : RStream) (res : Except IOErr Nat)
    (b' : UnownedReadBuffer) (s' : RStream) (app : List Nat) (h : RInv S b)
    (hr : read_until_limit fuel b s byte limit = some (res, b', s', app)) :
    s'.oracle = s.oracle ∧ (∀ e, res = .error e → ∃ c, e = .streamErr c) := by
  unfold read_until_limit at hr
  split at hr
  · simp only [Option.some.injEq, Prod.mk.injEq] at hr
    obtain ⟨h1, h2, h3, h4⟩ := hr
    subst h1; subst h2; subst h3; subst h4
    exact ⟨rfl, by intro e he; cases he⟩
  · split at hr
    · split at hr
      · rename_i e2 b2 s2 hfd
        obtain ⟨j1, _, _, _, _, j6, _, j8, _⟩ := feed_error S b s e2 b2 s2 h hfd
        simp only [Option.some.injEq, Prod.mk.injEq] at hr
        obtain ⟨h1, h2, h3, h4⟩ := hr
        subst h1; subst h2; subst h3; subst h4
        refine ⟨j6, ?_⟩
        intro e he
        simp only [Except.error.injEq] at he
        subst he
        exact ⟨s.calls, j8⟩
      · rename_i b2 s2 hfd
        obtain ⟨j1, _, _, _, _, j6, _⟩ := feed_eof S b s b2 s2 h hfd
        simp only [Option.some.injEq, Prod.mk.injEq] at hr
        obtain ⟨h1, h2, h3, h4⟩ := hr
        subst h1; subst h2; subst h3; subst h4
        exact ⟨j6, by intro e he; cases he⟩
      · rename_i b2 s2 hfd
        obtain ⟨j1, _, j3, _⟩ := feed_progress S b s b2 s2 h hfd
        obtain ⟨w2, w3⟩ :=
          readUntilLimitLoop_err S byte limit fuel 0 b2 s2 res b' s' app j1 hr
        exact ⟨w2.trans j3, w3⟩
    · exact readUntilLimitLoop_err S byte limit fuel 0 b s res b' s' app h hr

theorem readToEndLoop_err (S : Nat) :
    ∀ fuel count (b : UnownedReadBuffer) (s : RStream) res b' s' app,
    RInv S b →
    readToEndLoop fuel b s count = some (res, b', s', app) →
    RInv S b' ∧ s'.oracle = s.oracle ∧
    (∀ e, res = .error e → ∃ c, e = .streamErr c) := by
  intro fuel
  induction fuel with
  | zero => intro count b s res b' s' app _ hr; cases hr
  | succ fuel ih =>
    intro count b s res b' s' app h hr
    simp only [readToEndLoop] at hr
    have hb0 : RInv S { b with read_count := 0, fill_count := 0 } :=
      RInv_reset S b h
    split at hr
    · rename_i e2 b2 s2 hfd
      obtain ⟨j1, _, _, _, _, j6, _, j8, _⟩ := feed_error S _ s e2 b2 s2 hb0 hfd
      simp only [Option.some.injEq, Prod.mk.injEq] at hr
      obtain ⟨h1, h2, h3, h4⟩ := hr
      subst h1; subst h2; subst h3; subst h4
      refine ⟨j1, j6, ?_⟩
      intro e he
      simp only [Except.error.injEq] at he
      subst he
      exact ⟨s.calls, j8⟩
    · rename_i b2 s2 hfd
      obtain ⟨j1, _, _, _, _, j6, _⟩ := feed_eof S _ s b2 s2 hb0 hfd
      simp only [Option.some.injEq, Prod.mk.injEq] at hr
      obtain ⟨h1, h2, h3, h4⟩ := hr
      subst h1; subst h2; subst h3; subst h4
      exact ⟨j1, j6, by intro e he; cases he⟩
    · rename_i b2 s2 hfd
      obtain ⟨j1, _, j3, _⟩ := feed_progress S _ s b2 s2 hb0 hfd
      split at hr
      · cases hr
      · rename_i r3 b3 s3 out2 hrec
        simp only [Option.some.injEq, Prod.mk.injEq] at hr
        obtain ⟨h1, h2, h3, h4⟩ := hr
        subst h1; subst h2; subst h3; subst h4
        obtain ⟨w1, w2, w3⟩ := ih _ b2 s2 r3 b3 s3 out2 j1 hrec
        exact ⟨w1, w2.trans j3, w3⟩

theorem read_to_end_err (S : Nat) (fuel : Nat) (b : UnownedReadBuffer)
    (s : RStream) (res : Except IOErr Nat) (b' : UnownedReadBuffer)
    (s' : RStream) (app : List Nat) (h : RInv S b)
    (hr : read_to_end fuel b s = some (res, b', s', app)) :
    RInv S b' ∧ s'.oracle = s.oracle ∧
    (∀ e, res = .error e → ∃ c, e = .streamErr c) := by
  unfold read_to_end at hr
  split at hr
  · split at hr
    · rename_i e2 b2 s2 hfd
      obtain ⟨j1, _, _, _, _, j6, _, j8, _⟩ := feed_error S b s e2 b2 s2 h hfd
      simp only [Option.some.injEq, Prod.mk.injEq] at hr
      obtain ⟨h1, h2, h3, h4⟩ := hr
      subst h1; subst h2; subst h3; subst h4
      refine ⟨j1, j6, ?_⟩
      intro e he
      simp only [Except.error.injEq] at he
      subst he
      exact ⟨s.calls, j8⟩
    · rename_i b2 s2 hfd
      obtain ⟨j1, _, _, _, _, j6, _⟩ := feed_eof S b s b2 s2 h hfd
      simp only [Option.some.injEq, Prod.mk.injEq] at hr
      obtain ⟨h1, h2, h3, h4⟩ := hr
      subst h1; subst h2; subst h3; subst h4
      exact ⟨j1, j6, by intro e he; cases he⟩
    · rename_i b2 s2 hfd
      obtain ⟨j1, _, j3, _⟩ := feed_progress S b s b2 s2 h hfd
      obtain ⟨w1, w2, w3⟩ := readToEndLoop_err S fuel 0 b2 s2 res b' s' app j1 hr
      exact ⟨w1, w2.trans j3, w3⟩
  · exact readToEndLoop_err S fuel 0 b s res b' s' app h hr

theorem ensure_readable_spec (S : Nat) (b : UnownedReadBuffer) (s : RStream)
    (res : Except IOErr Bool) (b' : UnownedReadBuffer) (s' : RStream)
    (h : RInv S b) (hr : ensure_readable b s = (res, b', s')) :
    RInv S b' ∧ s'.oracle = s.oracle ∧
    (∀ e, res = .error e → ∃ c, e = .streamErr c) := by
  unfold ensure_readable at hr
  split at hr
  · simp only [Prod.mk.injEq] at hr
    obtain ⟨h1, h2, h3⟩ := hr
    subst h1; subst h2; subst h3
    exact ⟨h, rfl, by intro e he; cases he⟩
  · obtain ⟨j1, j2⟩ := feed_inv S b s res b' s' h hr
    refine ⟨j1, j2, ?_⟩
    intro e he
    subst he
    obtain ⟨_, _, _, _, _, _, _, j8, _⟩ := feed_error S b s e b' s' h hr
    exact ⟨s.calls, j8⟩

theorem fill_buf_spec (S : Nat) (b : UnownedReadBuffer) (s : RStream)
    (res : Except IOErr (List Nat)) (b' : UnownedReadBuffer) (s' : RStream)
    (h : RInv S b) (hr : fill_buf b s = (res, b', s')) :
    RInv S b' ∧ s'.oracle = s.oracle ∧
    (∀ e, res = .error e → ∃ c, e = .streamErr c) := by
  unfold fill_buf at hr
  split at hr
  · split at hr
    · rename_i e2 b2 s2 hfd
      obtain ⟨j1, _, _, _, _, j6, _, j8, _⟩ := feed_error S b s e2 b2 s2 h hfd
      simp only [Prod.mk.injEq] at hr
      obtain ⟨h1, h2, h3⟩ := hr
      subst h1; subst h2; subst h3
      refine ⟨j1, j6, ?_⟩
      intro e he
      simp only [Except.error.injEq] at he
      subst he
      exact ⟨s.calls, j8⟩
    · rename_i b2 s2 hfd
      obtain ⟨j1, _, _, _, _, j6, _⟩ := feed_eof S b s b2 s2 h hfd
      simp only [Prod.mk.injEq] at hr
      obtain ⟨h1, h2, h3⟩ := hr
      subst h1; subst h2; subst h3
      exact ⟨j1, j6, by intro e he; cases he⟩
    · rename_i b2 s2 hfd
      obtain ⟨j1, _, j3, _⟩ := feed_progress S b s b2 s2 h hfd
      simp only [Prod.mk.injEq] at hr
      obtain ⟨h1, h2, h3⟩ := hr
      subst h1; subst h2; subst h3
      exact ⟨j1, j3, by intro e he; cases he⟩
  · simp only [Prod.mk.injEq] at hr
    obtain ⟨h1, h2, h3⟩ := hr
    subst h1; subst h2; subst h3
    exact ⟨h, rfl, by intro e he; cases he⟩

theorem read_into_internal_buffer_spec (S : Nat) (b : UnownedReadBuffer)
    (s : RStream) (res : Except IOErr Nat) (b' : UnownedReadBuffer)
    (s' : RStream) (h : RInv S b)
    (hr : read_into_internal_buffer b s = some (res, b', s')) :
    RInv S b' ∧ s'.oracle = s.oracle ∧
    (∀ e, res = .error e → ∃ c, e = .streamErr c) := by
  obtain ⟨h1, h2, h3⟩ := h
  unfold read_into_internal_buffer at hr
  split at hr
  · cases hr
  · rename_i hsp
    simp only [streamRead] at hr
    cases ho : s.oracle s.calls with
    | none =>
      rw [ho] at hr
      simp only [Option.some.injEq, Prod.mk.injEq] at hr
      obtain ⟨q1, q2, q3⟩ := hr
      subst q1; subst q2; subst q3
      refine ⟨⟨h1, h2, h3⟩, rfl, ?_⟩
      intro e he
      simp only [Except.error.injEq] at he
      exact ⟨s.calls, he.symm⟩
    | some k =>
      rw [ho] at hr
      simp only [Option.some.injEq, Prod.mk.injEq] at hr
      obtain ⟨q1, q2, q3⟩ := hr
      subst q1; subst q2; subst q3
      refine ⟨⟨?_, ?_, ?_⟩, rfl, by intro e he; cases he⟩
      · show b.read_count ≤ b.fill_count + _
        omega
      · show b.fill_count + (s.data.take (min k (min (b.buffer.length -
          b.fill_count) s.data.length))).length ≤ S
        rw [List.length_take]
        omega
      · show (writeAt b.buffer b.fill_count _).length = S
        rw [writeAt_length]
        · exact h3
        · rw [List.length_take]
          omega

theorem consume_spec (S : Nat) (b : UnownedReadBuffer) (amt : Nat)
    (b' : UnownedReadBuffer) (h : RInv S b) (hr : consume b amt = some b') :
    RInv S b' := by
  unfold consume at hr
  split at hr
  · rename_i hle
    simp only [Option.some.injEq] at hr
    subst hr
    exact ⟨hle, h.2.1, h.2.2⟩
  · cases hr

theorem skip_spec (S : Nat) (b : UnownedReadBuffer) (amount : Nat)
    (b' : UnownedReadBuffer) (h : RInv S b) (hr : skip b amount = some b') :
    RInv S b' := by
  unfold skip at hr
  split at hr
  · cases hr
  · rename_i hlt
    split at hr
    · simp only [Option.some.injEq] at hr
      subst hr
      exact RInv_reset S b h
    · simp only [Option.some.injEq] at hr
      subst hr
      exact RInv_advance S b amount h (by simp only [available] at hlt ⊢; omega)

theorem copy_into_internal_buffer_spec (S : Nat) (b : UnownedReadBuffer)
    (d : List Nat) (b' : UnownedReadBuffer) (h : RInv S b)
    (hr : copy_into_internal_buffer b d = some b') : RInv S b' := by
  obtain ⟨h1, h2, h3⟩ := h
  unfold copy_into_internal_buffer at hr
  split at hr
  · cases hr
  · rename_i hsp
    simp only [Option.some.injEq] at hr
    subst hr
    refine ⟨?_, ?_, ?_⟩
    · show b.read_count ≤ b.fill_count + d.length
      omega
    · show b.fill_count + d.length ≤ S
      omega
    · show (writeAt b.buffer b.fill_count d).length = S
      rw [writeAt_length]
      · exact h3
      · omega

theorem try_read_spec (S : Nat) (b : UnownedReadBuffer) (n : Nat)
    (h : RInv S b) : RInv S (try_read b n).2 := by
  unfold try_read
  split
  · exact h
  · split
    · exact h
    · rcases hsv : serveRead b n with ⟨out1, b2⟩
      exact (serveRead_spec S b n out1 b2 h hsv).1

/-! ### `read_to_string` and `read_line` -/

theorem map_eq_error (r : Except IOErr Nat) (f : Nat → Nat) (e : IOErr)
    (h : r.map f = .error e) : r = .error e := by
  cases r with
  | error e4 => simp only [Except.map] at h; exact h
  | ok n => simp only [Except.map] at h; cases h

theorem readToStringLoop_spec (S : Nat) :
    ∀ fuel (b : UnownedReadBuffer) (s : RStream) (r : Except IOErr Nat)
      (b' : UnownedReadBuffer) (s' : RStream) (app : List Nat), RInv S b →
    readToStringLoop fuel b s = some (r, b', s', app) →
    RInv S b' ∧ s'.oracle = s.oracle ∧
    (∀ e, r = .error e → (e = .invalidData ∨ ∃ c, e = .streamErr c) ∧
      ∃ c2, s.data = c2 ++ s'.data ∧ app ++ resident b' = resident b ++ c2) := by
  intro fuel
  induction fuel with
  | zero => intro b s r b' s' app _ hr; cases hr
  | succ fuel ih =>
    intro b s r b' s' app h hr
    have hlen := resident_length S b h
    simp only [readToStringLoop] at hr
    split at hr
    · cases hr
    · rename_i e0 hsc
      simp only [Option.some.injEq, Prod.mk.injEq] at hr
      obtain ⟨h1, h2, h3, h4⟩ := hr
      subst h1; subst h2; subst h3; subst h4
      refine ⟨h, rfl, ?_⟩
      intro e he
      simp only [Except.error.injEq] at he
      subst he
      refine ⟨Or.inl (scanMid_error _ _ _ _ hsc), [], by simp, by simp⟩
    · rename_i ui hsc
      have hui : ui ≤ available b := by
        rcases scanMid_le _ _ _ _ hsc with hq | hq <;> omega
      split at hr
      · rename_i e0 har
        simp only [Option.some.injEq, Prod.mk.injEq] at hr
        obtain ⟨h1, h2, h3, h4⟩ := hr
        subst h1; subst h2; subst h3; subst h4
        refine ⟨h, rfl, ?_⟩
        intro e he
        simp only [Except.error.injEq] at he
        subst he
        refine ⟨Or.inl ?_, [], by simp, by simp⟩
        split at har
        · exact read_utf8_error _ _ har
        · cases har
      · rename_i app1 har
        have hb1 : RInv S (if 0 < ui then
            { b with read_count := b.read_count + ui } else b) := by
          split
          · exact RInv_advance S b ui h hui
          · exact h
        have hkey : app1 ++ resident (if 0 < ui then
            { b with read_count := b.read_count + ui } else b) = resident b := by
          by_cases hup : 0 < ui
          · rw [if_pos hup] at har ⊢
            have ha1 := read_utf8_ok _ _ har
            rw [ha1, resident_advance, List.take_append_drop]
          · rw [if_neg hup] at har ⊢
            simp only [Except.ok.injEq] at har
            rw [← har, List.nil_append]
        split at hr
        · rename_i e2 b2 s2 hfd
          obtain ⟨j1, j2, j3, j4, j5, j6, j7, j8, j9⟩ :=
            feed_error S _ s e2 b2 s2 hb1 hfd
          simp only [Option.some.injEq, Prod.mk.injEq] at hr
          obtain ⟨h1, h2, h3, h4⟩ := hr
          subst h1; subst h2; subst h3; subst h4
          refine ⟨j1, j6, ?_⟩
          intro e he
          simp only [Except.error.injEq] at he
          subst he
          refine ⟨Or.inr ⟨s.calls, j8⟩, [], by rw [j5, List.nil_append],
            by rw [j2, List.append_nil, hkey]⟩
        · rename_i b2 s2 hfd
          obtain ⟨j1, j2, j3, j4, m, k1, k2, k3, k4, k5, k6, k7⟩ :=
            feed_progress S _ s b2 s2 hb1 hfd
          split at hr
          · cases hr
          · rename_i r3 b3 s3 app2 hrec
            simp only [Option.some.injEq, Prod.mk.injEq] at hr
            obtain ⟨h1, h2, h3, h4⟩ := hr
            subst h1; subst h2; subst h3; subst h4
            obtain ⟨w1, w2, w3⟩ := ih b2 s2 r3 b3 s3 app2 j1 hrec
            refine ⟨w1, w2.trans j3, ?_⟩
            intro e he
            have he3 := map_eq_error r3 _ e he
            obtain ⟨q1, c2, q2, q3⟩ := w3 e he3
            refine ⟨q1, s.data.take m ++ c2, ?_, ?_⟩
            · rw [List.append_assoc, ← q2, k5, List.take_append_drop]
            · calc (app1 ++ app2) ++ resident b3
                  = app1 ++ (app2 ++ resident b3) := by
                    rw [List.append_assoc]
                _ = app1 ++ (resident b2 ++ c2) := by rw [q3]
                _ = resident b ++ (s.data.take m ++ c2) := by
                    rw [k4, ← hkey]
                    simp only [List.append_assoc]
        · rename_i b2 s2 hfd
          obtain ⟨j1, j2, j3, j4, j5, j6, j7, -⟩ := feed_eof S _ s b2 s2 hb1 hfd
          split at hr
          · cases hr
          · rename_i e0 hfv
            simp only [Option.some.injEq, Prod.mk.injEq] at hr
            obtain ⟨h1, h2, h3, h4⟩ := hr
            subst h1; subst h2; subst h3; subst h4
            refine ⟨j1, j6, ?_⟩
            intro e he
            simp only [Except.error.injEq] at he
            subst he
            refine ⟨Or.inl (finalValidate_error _ _ _ _ hfv), [],
              by rw [j5, List.nil_append], by rw [j2, List.append_nil, hkey]⟩
          · split at hr
            · rename_i e0 hru
              simp only [Option.some.injEq, Prod.mk.injEq] at hr
              obtain ⟨h1, h2, h3, h4⟩ := hr
              subst h1; subst h2; subst h3; subst h4
              refine ⟨j1, j6, ?_⟩
              intro e he
              simp only [Except.error.injEq] at he
              subst he
              refine ⟨Or.inl (read_utf8_error _ _ hru), [],
                by rw [j5, List.nil_append], by rw [j2, List.append_nil, hkey]⟩
            · rename_i app2 hru
              simp only [Option.some.injEq, Prod.mk.injEq] at hr
              obtain ⟨h1, h2, h3, h4⟩ := hr
              subst h1; subst h2; subst h3; subst h4
              refine ⟨j1, j6, ?_⟩
              intro e he; cases he

theorem read_to_string_spec (S fuel : Nat) (b : UnownedReadBuffer)
    (s : RStream) (r : Except IOErr Nat) (b' : UnownedReadBuffer)
    (s' : RStream) (app : List Nat) (h : RInv S b)
    (hr : read_to_string fuel b s = some (r, b', s', app)) :
    RInv S b' ∧ s'.oracle = s.oracle ∧
    (∀ e, r = .error e → (e = .invalidData ∨ ∃ c, e = .streamErr c) ∧
      ∃ c2, s.data = c2 ++ s'.data ∧ app ++ resident b' = resident b ++ c2) := by
  unfold read_to_string at hr
  split at hr
  · split at hr
    · rename_i e2 b2 s2 hfd
      obtain ⟨j1, j2, j3, j4, j5, j6, j7, j8, j9⟩ := feed_error S b s e2 b2 s2 h hfd
      simp only [Option.some.injEq, Prod.mk.injEq] at hr
      obtain ⟨h1, h2, h3, h4⟩ := hr
      subst h1; subst h2; subst h3; subst h4
      refine ⟨j1, j6, ?_⟩
      intro e he
      simp only [Except.error.injEq] at he
      subst he
      exact ⟨Or.inr ⟨s.calls, j8⟩, [], by rw [j5, List.nil_append],
        by rw [j2, List.append_nil, List.nil_append]⟩
    · rename_i b2 s2 hfd
      obtain ⟨j1, j2, j3, j4, j5, j6, j7, -⟩ := feed_eof S b s b2 s2 h hfd
      simp only [Option.some.injEq, Prod.mk.injEq] at hr
      obtain ⟨h1, h2, h3, h4⟩ := hr
      subst h1; subst h2; subst h3; subst h4
      exact ⟨j1, j6, by intro e he; cases he⟩
    · rename_i b2 s2 hfd
      obtain ⟨j1, j2, j3, j4, m, k1, k2, k3, k4, k5, k6, k7⟩ :=
        feed_progress S b s b2 s2 h hfd
      obtain ⟨w1, w2, w3⟩ := readToStringLoop_spec S fuel b2 s2 r b' s' app j1 hr
      refine ⟨w1, w2.trans j3, ?_⟩
      intro e he
      obtain ⟨q1, c2, q2, q3⟩ := w3 e he
      refine ⟨q1, s.data.take m ++ c2, ?_, ?_⟩
      · rw [List.append_assoc, ← q2, k5, List.take_append_drop]
      · calc app ++ resident b'
            = resident b2 ++ c2 := q3
          _ = (resident b ++ s.data.take m) ++ c2 := by rw [k4]
          _ = resident b ++ (s.data.take m ++ c2) := by
              rw [List.append_assoc]
  · exact readToStringLoop_spec S fuel b s r b' s' app h hr

theorem readLineLoop_spec (S : Nat) :
    ∀ fuel (b : UnownedReadBuffer) (s : RStream) (count : Nat)
      (r : Except IOErr Nat) (b' : UnownedReadBuffer) (s' : RStream)
      (app : List Nat), RInv S b →
    readLineLoop fuel b s count = some (r, b', s', app) →
    RInv S b' ∧ s'.oracle = s.oracle ∧
    (∀ e, r = .error e → (e = .invalidData ∨ ∃ c, e = .streamErr c) ∧
      ∃ c2, s.data = c2 ++ s'.data ∧ app ++ resident b' = resident b ++ c2) := by
  intro fuel
  induction fuel with
  | zero => intro b s count r b' s' app _ hr; cases hr
  | succ fuel ih =>
    intro b s count r b' s' app h hr
    have hlen := resident_length S b h
    simp only [readLineLoop] at hr
    split at hr
    · rename_i i hfb
      have hfi := findByte_lt 10 (resident b) i hfb
      split at hr
      · cases hr
      · rename_i e0 hsc
        simp only [Option.some.injEq, Prod.mk.injEq] at hr
        obtain ⟨h1, h2, h3, h4⟩ := hr
        subst h1; subst h2; subst h3; subst h4
        refine ⟨h, rfl, ?_⟩
        intro e he
        simp only [Except.error.injEq] at he
        subst he
        exact ⟨Or.inl (scanFull_error _ _ _ _ hsc), [], by simp, by simp⟩
      · split at hr
        · rename_i e0 hru
          simp only [Option.some.injEq, Prod.mk.injEq] at hr
          obtain ⟨h1, h2, h3, h4⟩ := hr
          subst h1; subst h2; subst h3; subst h4
          refine ⟨h, rfl, ?_⟩
          intro e he
          simp only [Except.error.injEq] at he
          subst he
          exact ⟨Or.inl (read_utf8_error _ _ hru), [], by simp, by simp⟩
        · rename_i app0 hru
          simp only [Option.some.injEq, Prod.mk.injEq] at hr
          obtain ⟨h1, h2, h3, h4⟩ := hr
          subst h1; subst h2; subst h3; subst h4
          refine ⟨RInv_advance S b _ h (by rw [List.length_take]; omega),
            rfl, ?_⟩
          intro e he; cases he
    · rename_i hfb
      split at hr
      · cases hr
      · rename_i e0 hsc
        simp only [Option.some.injEq, Prod.mk.injEq] at hr
        obtain ⟨h1, h2, h3, h4⟩ := hr
        subst h1; subst h2; subst h3; subst h4
        refine ⟨h, rfl, ?_⟩
        intro e he
        simp only [Except.error.injEq] at he
        subst he
        exact ⟨Or.inl (scanMid_error _ _ _ _ hsc), [], by simp, by simp⟩
      · rename_i ui hsc
        have hui : ui ≤ available b := by
          rcases scanMid_le _ _ _ _ hsc with hq | hq <;> omega
        split at hr
        · rename_i e0 har
          simp only [Option.some.injEq, Prod.mk.injEq] at hr
          obtain ⟨h1, h2, h3, h4⟩ := hr
          subst h1; subst h2; subst h3; subst h4
          refine ⟨h, rfl, ?_⟩
          intro e he
          simp only [Except.error.injEq] at he
          subst he
          refine ⟨Or.inl ?_, [], by simp, by simp⟩
          split at har
          · exact read_utf8_error _ _ har
          · cases har
        · rename_i app1 har
          have hb1 : RInv S (if 0 < ui then
              { b with read_count := b.read_count + ui } else b) := by
            split
            · exact RInv_advance S b ui h hui
            · exact h
          have hkey : app1 ++ resident (if 0 < ui then
              { b with read_count := b.read_count + ui } else b) =
              resident b := by
            by_cases hup : 0 < ui
            · rw [if_pos hup] at har ⊢
              have ha1 := read_utf8_ok _ _ har
              rw [ha1, resident_advance, List.take_append_drop]
            · rw [if_neg hup] at har ⊢
              simp only [Except.ok.injEq] at har
              rw [← har, List.nil_append]
          split at hr
          · rename_i e2 b2 s2 hfd
            obtain ⟨j1, j2, j3, j4, j5, j6, j7, j8, j9⟩ :=
              feed_error S _ s e2 b2 s2 hb1 hfd
            simp only [Option.some.injEq, Prod.mk.injEq] at hr
            obtain ⟨h1, h2, h3, h4⟩ := hr
            subst h1; subst h2; subst h3; subst h4
            refine ⟨j1, j6, ?_⟩
            intro e he
            simp only [Except.error.injEq] at he
            subst he
            exact ⟨Or.inr ⟨s.calls, j8⟩, [], by rw [j5, List.nil_append],
              by rw [j2, List.append_nil, hkey]⟩
          · rename_i b2 s2 hfd
            obtain ⟨j1, j2, j3, j4, j5, j6, j7, -⟩ :=
              feed_eof S _ s b2 s2 hb1 hfd
            simp only [Option.some.injEq, Prod.mk.injEq] at hr
            obtain ⟨h1, h2, h3, h4⟩ := hr
            subst h1; subst h2; subst h3; subst h4
            refine ⟨j1, j6, ?_⟩
            intro e he; cases he
          · rename_i b2 s2 hfd
            obtain ⟨j1, j2, j3, j4, m, k1, k2, k3, k4, k5, k6, k7⟩ :=
              feed_progress S _ s b2 s2 hb1 hfd
            split at hr
            · cases hr
            · rename_i r3 b3 s3 app2 hrec
              simp only [Option.some.injEq, Prod.mk.injEq] at hr
              obtain ⟨h1, h2, h3, h4⟩ := hr
              subst h1; subst h2; subst h3; subst h4
              obtain ⟨w1, w2, w3⟩ := ih b2 s2 _ r3 b3 s3 app2 j1 hrec
              refine ⟨w1, w2.trans j3, ?_⟩
              intro e he
              obtain ⟨q1, c2, q2, q3⟩ := w3 e he
              refine ⟨q1, s.data.take m ++ c2, ?_, ?_⟩
              · rw [List.append_assoc, ← q2, k5, List.take_append_drop]
              · calc (app1 ++ app2) ++ resident b3
                    = app1 ++ (app2 ++ resident b3) := by
                      rw [List.append_assoc]
                  _ = app1 ++ (resident b2 ++ c2) := by rw [q3]
                  _ = resident b ++ (s.data.take m ++ c2) := by
                      rw [k4, ← hkey]
                      simp only [List.append_assoc]

theorem read_line_spec (S fuel : Nat) (b : UnownedReadBuffer)
    (s : RStream) (r : Except IOErr Nat) (b' : UnownedReadBuffer)
    (s' : RStream) (app : List Nat) (h : RInv S b)
    (hr : read_line fuel b s = some (r, b', s', app)) :
    RInv S b' ∧ s'.oracle = s.oracle ∧
    (∀ e, r = .error e → (e = .invalidData ∨ ∃ c, e = .streamErr c) ∧
      ∃ c2, s.data = c2 ++ s'.data ∧ app ++ resident b' = resident b ++ c2) := by
  unfold read_line at hr
  split at hr
  · split at hr
    · rename_i e2 b2 s2 hfd
      obtain ⟨j1, j2, j3, j4, j5, j6, j7, j8, j9⟩ := feed_error S b s e2 b2 s2 h hfd
      simp only [Option.some.injEq, Prod.mk.injEq] at hr
      obtain ⟨h1, h2, h3, h4⟩ := hr
      subst h1; subst h2; subst h3; subst h4
      refine ⟨j1, j6, ?_⟩
      intro e he
      simp only [Except.error.injEq] at he
      subst he
      exact ⟨Or.inr ⟨s.calls, j8⟩, [], by rw [j5, List.nil_append],
        by rw [j2, List.append_nil, List.nil_append]⟩
    · rename_i b2 s2 hfd
      obtain ⟨j1, j2, j3, j4, j5, j6, j7, -⟩ := feed_eof S b s b2 s2 h hfd
      simp only [Option.some.injEq, Prod.mk.injEq] at hr
      obtain ⟨h1, h2, h3, h4⟩ := hr
      subst h1; subst h2; subst h3; subst h4
      exact ⟨j1, j6, by intro e he; cases he⟩
    · rename_i b2 s2 hfd
      obtain ⟨j1, j2, j3, j4, m, k1, k2, k3, k4, k5, k6, k7⟩ :=
        feed_progress S b s b2 s2 h hfd
      obtain ⟨w1, w2, w3⟩ := readLineLoop_spec S fuel b2 s2 0 r b' s' app j1 hr
      refine ⟨w1, w2.trans j3, ?_⟩
      intro e he
      obtain ⟨q1, c2, q2, q3⟩ := w3 e he
      refine ⟨q1, s.data.take m ++ c2, ?_, ?_⟩
      · rw [List.append_assoc, ← q2, k5, List.take_append_drop]
      · calc app ++ resident b'
            = resident b2 ++ c2 := q3
          _ = (resident b ++ s.data.take m) ++ c2 := by rw [k4]
          _ = resident b ++ (s.data.take m ++ c2) := by
              rw [List.append_assoc]
  · exact readLineLoop_spec S fuel b s 0 r b' s' app h hr

/-- C2: refuted by the code. On the success path that ends at end-of-stream,
`read_to_string` pushes the withheld tail of the resident run into the string
and counts it in the returned total, but never advances `read_count` past it
(the `self.read_count += utf_index` of the final block is missing, unlike
`read_line`'s corresponding path). The appended bytes therefore stay resident:
with a 16-byte buffer over the two-byte source `"ab"`, `read_to_string`
returns `Ok 2` and appends `[97, 98]`, yet the resident run afterwards is
still `[97, 98]`, and a subsequent `try_read` returns those already-appended
bytes a second time — contradicting the claim that counted bytes have been
consumed. -/
theorem C2_read_to_string_duplicates :
    ∃ b' s', read_to_string 8 (freshRead 16)
        ⟨[97, 98], fun _ => some 16, 0⟩ = some (.ok 2, b', s', [97, 98]) ∧
      resident b' = [97, 98] ∧ (try_read b' 2).1 = [97, 98] :=
  ⟨_, _, rfl, rfl, rfl⟩

/-- C4: whenever `read_to_string` or `read_line` fails with the invalid-data
(malformed UTF-8) error, no byte is discarded: the bytes `c` consumed from the
source so far, together with the previously resident run, are split exactly
into the part appended to the string and the new resident run — every
consumed byte not yet appended to the string is still resident, retrievable
through the raw read operations. -/
theorem C4_invalid_utf8_no_byte_lost (S fuel : Nat) (b : UnownedReadBuffer)
    (s : RStream) (h : RInv S b) :
    (∀ b' s' app,
      read_to_string fuel b s = some (.error .invalidData, b', s', app) →
      ∃ c, s.data = c ++ s'.data ∧ app ++ resident b' = resident b ++ c) ∧
    (∀ b' s' app,
      read_line fuel b s = some (.error .invalidData, b', s', app) →
      ∃ c, s.data = c ++ s'.data ∧ app ++ resident b' = resident b ++ c) := by
  constructor
  · intro b' s' app hr
    obtain ⟨-, -, w3⟩ := read_to_string_spec S fuel b s _ b' s' app h hr
    obtain ⟨-, c, q2, q3⟩ := w3 .invalidData rfl
    exact ⟨c, q2, q3⟩
  · intro b' s' app hr
    obtain ⟨-, -, w3⟩ := read_line_spec S fuel b s _ b' s' app h hr
    obtain ⟨-, c, q2, q3⟩ := w3 .invalidData rfl
    exact ⟨c, q2, q3⟩

/-- Witness for C4 at a concrete malformed input: the source serves `[65,
0xC3]`, a truncated two-byte sequence; `read_to_string` fails with
invalid-data, appends nothing, and both bytes stay resident. -/
theorem C4_invalid_utf8_no_byte_lost_witness :
    ∃ c, ([65, 195] : List Nat) =
        c ++ (RStream.mk [] (fun _ => some 16) 2).data ∧
      ([] : List Nat) ++
          resident ⟨0, 2, writeAt (List.replicate 16 0) 0 [65, 195]⟩ =
        resident (freshRead 16) ++ c :=
  (C4_invalid_utf8_no_byte_lost 16 8 (freshRead 16)
      ⟨[65, 195], fun _ => some 16, 0⟩ (by decide)).1
    ⟨0, 2, writeAt (List.replicate 16 0) 0 [65, 195]⟩
    ⟨[], fun _ => some 16, 2⟩ [] rfl

theorem readExactLoop_streamErr (S : Nat) :
    ∀ fuel (b : UnownedReadBuffer) (s : RStream) (n : Nat)
      (b' : UnownedReadBuffer) (s' : RStream) (out : List Nat) (c : Nat),
    RInv S b →
    readExactLoop fuel b s n = some (.error (.streamErr c), b', s', out) →
    s.oracle c = none := by
  intro fuel
  induction fuel with
  | zero => intro b s n b' s' out c h hr; cases hr
  | succ fuel ih =>
    intro b s n b' s' out c h hr
    simp only [readExactLoop] at hr
    split at hr
    · simp only [Option.some.injEq, Prod.mk.injEq] at hr
      obtain ⟨h1, -⟩ := hr
      cases h1
    · have hb0 : RInv S { b with read_count := 0, fill_count := 0 } :=
        RInv_reset S b h
      split at hr
      · rename_i e2 b2 s2 hfd
        obtain ⟨-, -, -, -, -, -, -, j8, j9⟩ := feed_error S _ s e2 b2 s2 hb0 hfd
        simp only [Option.some.injEq, Prod.mk.injEq] at hr
        obtain ⟨h1, -⟩ := hr
        rw [j8] at h1
        simp only [Except.error.injEq, IOErr.streamErr.injEq] at h1
        rw [← h1]
        exact j9
      · simp only [Option.some.injEq, Prod.mk.injEq] at hr
        obtain ⟨h1, -⟩ := hr
        cases h1
      · rename_i b2 s2 hfd
        obtain ⟨j1, -, j3, -⟩ := feed_progress S _ s b2 s2 hb0 hfd
        split at hr
        · cases hr
        · rename_i r3 b3 s3 out2 hrec
          simp only [Option.some.injEq, Prod.mk.injEq] at hr
          obtain ⟨h1, -⟩ := hr
          rw [h1] at hrec
          have := ih b2 s2 (n - available b) b3 s3 out2 c j1 hrec
          rw [j3] at this
          exact this

theorem read_exact_streamErr (S fuel n : Nat) (b : UnownedReadBuffer)
    (s : RStream) (b' : UnownedReadBuffer) (s' : RStream) (out : List Nat)
    (c : Nat) (h : RInv S b)
    (hr : read_exact fuel b s n = some (.error (.streamErr c), b', s', out)) :
    s.oracle c = none := by
  unfold read_exact at hr
  split at hr
  · simp only [Option.some.injEq, Prod.mk.injEq] at hr
    obtain ⟨h1, -⟩ := hr
    cases h1
  · split at hr
    · split at hr
      · rename_i e2 b2 s2 hfd
        obtain ⟨-, -, -, -, -, -, -, j8, j9⟩ := feed_error S b s e2 b2 s2 h hfd
        simp only [Option.some.injEq, Prod.mk.injEq] at hr
        obtain ⟨h1, -⟩ := hr
        rw [j8] at h1
        simp only [Except.error.injEq, IOErr.streamErr.injEq] at h1
        rw [← h1]
        exact j9
      · simp only [Option.some.injEq, Prod.mk.injEq] at hr
        obtain ⟨h1, -⟩ := hr
        cases h1
      · rename_i b2 s2 hfd
        obtain ⟨j1, -, j3, -⟩ := feed_progress S b s b2 s2 h hfd
        have := readExactLoop_streamErr S fuel b2 s2 n b' s' out c j1 hr
        rw [j3] at this
        exact this
    · exact readExactLoop_streamErr S fuel b s n b' s' out c h hr

/-- C8: `read_exact` succeeds exactly when the output slice was fully
populated; on failure the bytes already copied are kept (the conservation
equation) and the error is unexpected-end-of-stream or a propagated stream
error — in particular, over a source whose read calls never fail,
end-of-stream before `n` bytes is the only failure and it is reported as
unexpected-end-of-stream. No other read operation ever returns the
unexpected-end-of-stream error. -/
theorem C8_read_exact_unexpected_eof (S fuel n byte limit : Nat)
    (b : UnownedReadBuffer) (s : RStream) (h : RInv S b) :
    (∀ r b' s' out, read_exact fuel b s n = some (r, b', s', out) →
      ((r = .ok () ↔ out.length = n) ∧
       out ++ resident b' ++ s'.data = resident b ++ s.data ∧
       (∀ e, r = .error e →
         e = .unexpectedEof ∨ ∃ c, e = .streamErr c) ∧
       (goodOracle s.oracle → ∀ e, r = .error e → e = .unexpectedEof))) ∧
    (∀ res b' s', read b s n = (res, b', s') →
      ∀ e, res = .error e → e ≠ .unexpectedEof) ∧
    (∀ res b' s', ensure_readable b s = (res, b', s') →
      ∀ e, res = .error e → e ≠ .unexpectedEof) ∧
    (∀ res b' s', fill_buf b s = (res, b', s') →
      ∀ e, res = .error e → e ≠ .unexpectedEof) ∧
    (∀ res b' s', read_into_internal_buffer b s = some (res, b', s') →
      ∀ e, res = .error e → e ≠ .unexpectedEof) ∧
    (∀ res b' s' out, read_until fuel b s byte = some (res, b', s', out) →
      ∀ e, res = .error e → e ≠ .unexpectedEof) ∧
    (∀ res b' s' out,
      read_until_limit fuel b s byte limit = some (res, b', s', out) →
      ∀ e, res = .error e → e ≠ .unexpectedEof) ∧
    (∀ res b' s' out, read_to_end fuel b s = some (res, b', s', out) →
      ∀ e, res = .error e → e ≠ .unexpectedEof) ∧
    (∀ res b' s' out, read_to_string fuel b s = some (res, b', s', out) →
      ∀ e, res = .error e → e ≠ .unexpectedEof) ∧
    (∀ res b' s' out, read_line fuel b s = some (res, b', s', out) →
      ∀ e, res = .error e → e ≠ .unexpectedEof) := by
  refine ⟨?_, ?_, ?_, ?_, ?_, ?_, ?_, ?_, ?_, ?_⟩
  · intro r b' s' out hr
    obtain ⟨w1, w2, w3, w4, w5⟩ := read_exact_spec S fuel n b s r b' s' out h hr
    refine ⟨⟨?_, ?_⟩, w3, ?_, ?_⟩
    · intro hro; exact w4 hro
    · intro hl
      cases r with
      | ok u => cases u; rfl
      | error e =>
        obtain ⟨q1, -⟩ := w5 e rfl
        omega
    · intro e he
      exact (w5 e he).2
    · intro hg e he
      rcases (w5 e he).2 with q | ⟨c, q⟩
      · exact q
      · subst q
        rw [he] at hr
        have hnone := read_exact_streamErr S fuel n b s b' s' out c h hr
        obtain ⟨k, hk, -⟩ := hg c
        rw [hnone] at hk
        cases hk
  · intro res b' s' hr e he
    obtain ⟨-, -, -, -, q5, -⟩ := read_error_spec S b s n e b' s' h (he ▸ hr)
    subst q5
    intro hco; cases hco
  · intro res b' s' hr e he
    obtain ⟨-, -, w3⟩ := ensure_readable_spec S b s res b' s' h hr
    obtain ⟨c, hc⟩ := w3 e he
    subst hc
    intro hco; cases hco
  · intro res b' s' hr e he
    obtain ⟨-, -, w3⟩ := fill_buf_spec S b s res b' s' h hr
    obtain ⟨c, hc⟩ := w3 e he
    subst hc
    intro hco; cases hco
  · intro res b' s' hr e he
    obtain ⟨-, -, w3⟩ := read_into_internal_buffer_spec S b s res b' s' h hr
    obtain ⟨c, hc⟩ := w3 e he
    subst hc
    intro hco; cases hco
  · intro res b' s' out hr e he
    obtain ⟨-, -, w3⟩ := read_until_err S fuel byte b s res b' s' out h hr
    obtain ⟨c, hc⟩ := w3 e he
    subst hc
    intro hco; cases hco
  · intro res b' s' out hr e he
    obtain ⟨-, w3⟩ := read_until_limit_err S fuel byte limit b s res b' s' out h hr
    obtain ⟨c, hc⟩ := w3 e he
    subst hc
    intro hco; cases hco
  · intro res b' s' out hr e he
    obtain ⟨-, -, w3⟩ := read_to_end_err S fuel b s res b' s' out h hr
    obtain ⟨c, hc⟩ := w3 e he
    subst hc
    intro hco; cases hco
  · intro res b' s' out hr e he
    obtain ⟨-, -, w3⟩ := read_to_string_spec S fuel b s res b' s' out h hr
    obtain ⟨q1, -⟩ := w3 e he
    rcases q1 with q | ⟨c, q⟩ <;> subst q <;> intro hco <;> cases hco
  · intro res b' s' out hr e he
    obtain ⟨-, -, w3⟩ := read_line_spec S fuel b s res b' s' out h hr
    obtain ⟨q1, -⟩ := w3 e he
    rcases q1 with q | ⟨c, q⟩ <;> subst q <;> intro hco <;> cases hco

/-- Witness for C8: a fresh 16-byte buffer over a one-byte source, asked for
three bytes: `read_exact` fails (the slice was not fully populated — one of
one byte copied, not rolled back) and the conservation equation holds. -/
theorem C8_read_exact_unexpected_eof_witness :
    ((Except.error IOErr.unexpectedEof : Except IOErr Unit) = .ok () ↔
      ([7] : List Nat).length = 3) ∧
    ([7] : List Nat) ++
        resident ⟨0, 0, writeAt (List.replicate 16 0) 0 [7]⟩ ++
        (RStream.mk [] (fun _ => some 16) 2).data =
      resident (freshRead 16) ++ [7] :=
  let t := (C8_read_exact_unexpected_eof 16 8 3 0 0 (freshRead 16)
      ⟨[7], fun _ => some 16, 0⟩ (by decide)).1
    (.error .unexpectedEof) ⟨0, 0, writeAt (List.replicate 16 0) 0 [7]⟩
    ⟨[], fun _ => some 16, 2⟩ [7] rfl
  ⟨t.1, t.2.1⟩

theorem read_until_limit_inv (S fuel byte limit : Nat)
    (b : UnownedReadBuffer) (s : RStream) (res : Except IOErr Nat)
    (b' : UnownedReadBuffer) (s' : RStream) (app : List Nat) (h : RInv S b)
    (hr : read_until_limit fuel b s byte limit = some (res, b', s', app)) :
    RInv S b' := by
  unfold read_until_limit at hr
  split at hr
  · simp only [Option.some.injEq, Prod.mk.injEq] at hr
    obtain ⟨-, h2, -⟩ := hr
    rw [← h2]
    exact h
  · split at hr
    · split at hr
      · rename_i e2 b2 s2 hfd
        obtain ⟨j1, -⟩ := feed_error S b s e2 b2 s2 h hfd
        simp only [Option.some.injEq, Prod.mk.injEq] at hr
        obtain ⟨-, h2, -⟩ := hr
        rw [← h2]
        exact j1
      · rename_i b2 s2 hfd
        obtain ⟨j1, -⟩ := feed_eof S b s b2 s2 h hfd
        simp only [Option.some.injEq, Prod.mk.injEq] at hr
        obtain ⟨-, h2, -⟩ := hr
        rw [← h2]
        exact j1
      · rename_i b2 s2 hfd
        obtain ⟨j1, -⟩ := feed_progress S b s b2 s2 h hfd
        exact (readUntilLimitLoop_spec S byte limit fuel 0 b2 s2 res b' s' app
          j1 (Nat.zero_le _) hr).1
    · exact (readUntilLimitLoop_spec S byte limit fuel 0 b s res b' s' app
        h (Nat.zero_le _) hr).1

/-- C3: the buffer invariant `0 ≤ read_count ≤ fill_count ≤ S` (together with
the fixed storage size) holds for a fresh buffer and is preserved by every
public operation of `UnownedReadBuffer` on every return path, error returns
included, over any source whose read call reports at most the slice length
(built into `streamRead`). -/
theorem C3_read_invariant_preserved (S fuel n amt byte limit : Nat)
    (d : List Nat) (b : UnownedReadBuffer) (s : RStream) (h : RInv S b) :
    RInv S (freshRead S) ∧
    RInv S (compact b) ∧
    (∀ r b' s', feed b s = (r, b', s') → RInv S b') ∧
    RInv S (try_read b n).2 ∧
    (∀ r b' s', read b s n = (r, b', s') → RInv S b') ∧
    (∀ r b' s', ensure_readable b s = (r, b', s') → RInv S b') ∧
    (∀ r b' s', fill_buf b s = (r, b', s') → RInv S b') ∧
    (∀ b', consume b amt = some b' → RInv S b') ∧
    (∀ b', skip b amt = some b' → RInv S b') ∧
    (∀ r b' s', read_into_internal_buffer b s = some (r, b', s') →
      RInv S b') ∧
    (∀ b', copy_into_internal_buffer b d = some b' → RInv S b') ∧
    (∀ r b' s' out, read_exact fuel b s n = some (r, b', s', out) →
      RInv S b') ∧
    (∀ r b' s' out, read_until fuel b s byte = some (r, b', s', out) →
      RInv S b') ∧
    (∀ r b' s' out,
      read_until_limit fuel b s byte limit = some (r, b', s', out) →
      RInv S b') ∧
    (∀ r b' s' out, read_to_end fuel b s = some (r, b', s', out) →
      RInv S b') ∧
    (∀ r b' s' out, read_to_string fuel b s = some (r, b', s', out) →
      RInv S b') ∧
    (∀ r b' s' out, read_line fuel b s = some (r, b', s', out) →
      RInv S b') := by
  refine ⟨RInv_freshRead S, (compact_spec S b h).1, ?_, try_read_spec S b n h,
    ?_, ?_, ?_, ?_, ?_, ?_, ?_, ?_, ?_, ?_, ?_, ?_, ?_⟩
  · intro r b' s' hr
    exact (feed_inv S b s r b' s' h hr).1
  · intro r b' s' hr
    cases r with
    | ok out => exact (read_ok_spec S b s n out b' s' h hr).1
    | error e => exact (read_error_spec S b s n e b' s' h hr).1
  · intro r b' s' hr
    exact (ensure_readable_spec S b s r b' s' h hr).1
  · intro r b' s' hr
    exact (fill_buf_spec S b s r b' s' h hr).1
  · intro b' hr
    exact consume_spec S b amt b' h hr
  · intro b' hr
    exact skip_spec S b amt b' h hr
  · intro r b' s' hr
    exact (read_into_internal_buffer_spec S b s r b' s' h hr).1
  · intro b' hr
    exact copy_into_internal_buffer_spec S b d b' h hr
  · intro r b' s' out hr
    exact (read_exact_spec S fuel n b s r b' s' out h hr).1
  · intro r b' s' out hr
    exact (read_until_err S fuel byte b s r b' s' out h hr).1
  · intro r b' s' out hr
    exact read_until_limit_inv S fuel byte limit b s r b' s' out h hr
  · intro r b' s' out hr
    exact (read_to_end_err S fuel b s r b' s' out h hr).1
  · intro r b' s' out hr
    exact (read_to_string_spec S fuel b s r b' s' out h hr).1
  · intro r b' s' out hr
    exact (read_line_spec S fuel b s r b' s' out h hr).1

/-- Witness for C3 at a concrete state: fresh 16-byte buffer, one-byte
source. -/
theorem C3_read_invariant_preserved_witness :
    RInv 16 (freshRead 16) ∧ RInv 16 (compact (freshRead 16)) ∧
    RInv 16 (try_read (freshRead 16) 1).2 :=
  let t := C3_read_invariant_preserved 16 4 1 0 0 1 [] (freshRead 16)
    ⟨[1], fun _ => some 16, 0⟩ (by decide)
  ⟨t.1, t.2.1, t.2.2.2.1⟩

end UnownedBuf
